import Mathlib

/-!
Verification of the kube-batch node bookkeeping (`pkg/scheduler/api/node_info.go`)
and the scheduler configuration loader (`loadSchedulerConf`).

The Go code is shallowly embedded: each Go method becomes a Lean function on a
record of the receiver's fields; in-place mutation becomes returning the updated
record, and an error return becomes an `Option String` component.  The `Resource`
type, `TaskInfo` helpers and the configuration record types live outside the
available source files, so they are modelled from the specification (each such
definition says so in its doc comment).
-/

namespace KubeBatch

/-- Modelled from the spec: the `Resource` type is not in the available sources.
§3: "A vector over named dimensions — at least milliCPU, memory, and extensible
scalars (e.g. GPU)"; "no operation may leave a negative component", so the
components are natural numbers. -/
structure Resource where
  milliCPU : Nat
  memory : Nat
  gpu : Nat
deriving Repr, DecidableEq

/-- Modelled from the spec: `EmptyResource()` constructor, the all-zero vector. -/
def EmptyResource : Resource := ⟨0, 0, 0⟩

/-- Modelled from the spec: component-wise addition (§4.1 "Addition and
subtraction are component-wise"). -/
def Resource.Add (a b : Resource) : Resource :=
  ⟨a.milliCPU + b.milliCPU, a.memory + b.memory, a.gpu + b.gpu⟩

/-- Modelled from the spec: component-wise subtraction; §3 "`Sub` on a larger
value clamps to zero", which is exactly truncated subtraction on `Nat`. -/
def Resource.Sub (a b : Resource) : Resource :=
  ⟨a.milliCPU - b.milliCPU, a.memory - b.memory, a.gpu - b.gpu⟩

/-- Modelled from the spec: `Clone` returns a fresh copy with the same
components. -/
def Resource.Clone (a : Resource) : Resource :=
  ⟨a.milliCPU, a.memory, a.gpu⟩

/-- Modelled from the spec: `LessEqual(a,b)` is true iff every dimension of `a`
is ≤ the same dimension of `b` (§4.1). -/
def Resource.LessEqual (a b : Resource) : Bool :=
  a.milliCPU ≤ b.milliCPU && a.memory ≤ b.memory && a.gpu ≤ b.gpu

/-- Modelled from the spec: the task status set of §3, "drawn from the closed
set Pending, Allocated, Pipelined, Bound, Running, Releasing, Succeeded,
Failed, Unknown". -/
inductive TaskStatus where
  | Pending | Allocated | Pipelined | Bound | Running | Releasing
  | Succeeded | Failed | Unknown
deriving Repr, DecidableEq

/-- Modelled from the spec: the part of a `v1.Pod` the node bookkeeping reads —
its namespace and name (which form the task key) and whatever marking
`CheckBackfill` inspects, abstracted as one boolean field. -/
structure Pod where
  Namespace : String
  Name : String
  BackfillMark : Bool
deriving Repr, DecidableEq

/-- Modelled from the spec: `PodKey` builds the stable "namespace/name" key of
§3 ("stable key (namespace/name)"). -/
def PodKey (p : Pod) : String :=
  p.Namespace ++ "/" ++ p.Name

/-- Modelled from the spec: `CheckBackfill` is not in the available sources; it
decides from the pod object whether the pod is a backfill pod (§4.7 marks
backfill allocations on the pod), i.e. it reads the pod's backfill marking. -/
def CheckBackfill (p : Pod) : Bool :=
  p.BackfillMark

/-- Modelled from the spec: the fields of `TaskInfo` (§3) that the node
bookkeeping touches: pod, namespace/name, resource request, status and the
`IsBackfill` flag. -/
structure TaskInfo where
  Pod : Pod
  Namespace : String
  Name : String
  Resreq : Resource
  Status : TaskStatus
  IsBackfill : Bool
deriving Repr, DecidableEq

/-- Modelled from the spec: `TaskInfo.Clone` copies every field into a fresh
value (§3 Ownership: "Tasks inside a node are stored by value (clones)"). -/
def TaskInfo.Clone (ti : TaskInfo) : TaskInfo :=
  { Pod := ti.Pod
    Namespace := ti.Namespace
    Name := ti.Name
    Resreq := ti.Resreq.Clone
    Status := ti.Status
    IsBackfill := ti.IsBackfill }

/-- Modelled from the spec: the part of a `v1.Node` that `NewNodeInfo` and
`SetNode` read: its name and the `Status.Allocatable` / `Status.Capacity`
resource lists, already converted by `NewResource`. -/
structure V1Node where
  Name : String
  Allocatable : Resource
  Capacity : Resource
deriving Repr, DecidableEq

/-- The task map of a `NodeInfo`, embedded as an association list from task key
to stored task, in insertion order. -/
abbrev TaskMap := List (String × TaskInfo)

/-- Lookup of a key in the task map (Go map read `ni.Tasks[key]`). -/
def TaskMap.lookup : TaskMap → String → Option TaskInfo
  | [], _ => none
  | (k, t) :: rest, key => if k = key then some t else TaskMap.lookup rest key

/-- Removal of a key from the task map (Go `delete(ni.Tasks, key)`). -/
def TaskMap.erase : TaskMap → String → TaskMap
  | [], _ => []
  | (k, t) :: rest, key =>
      if k = key then rest else (k, t) :: TaskMap.erase rest key

/-- Insertion into the task map (Go `ni.Tasks[key] = ti` on an absent key). -/
def TaskMap.insert (m : TaskMap) (key : String) (ti : TaskInfo) : TaskMap :=
  m ++ [(key, ti)]

/-- `NodeInfo` (node_info.go lines 27-45): node-level aggregated information. -/
structure NodeInfo where
  Name : String
  Node : Option V1Node
  Releasing : Resource
  Idle : Resource
  Used : Resource
  Backfilled : Resource
  Allocatable : Resource
  Capability : Resource
  Tasks : TaskMap
deriving DecidableEq

/-- `NewNodeInfo` (node_info.go lines 47-76). -/
def NewNodeInfo (node : Option V1Node) : NodeInfo :=
  match node with
  | none =>
      { Name := ""
        Node := none
        Releasing := EmptyResource
        Idle := EmptyResource
        Used := EmptyResource
        Backfilled := EmptyResource
        Allocatable := EmptyResource
        Capability := EmptyResource
        Tasks := [] }
  | some n =>
      { Name := n.Name
        Node := some n
        Releasing := EmptyResource
        Idle := n.Allocatable
        Used := EmptyResource
        Backfilled := EmptyResource
        Allocatable := n.Allocatable
        Capability := n.Capacity
        Tasks := [] }

/-- `NodeInfo.AddTask` (node_info.go lines 113-150).  The first component is
the error return (`none` on success); the second is the receiver after the
call. -/
def NodeInfo.AddTask (ni : NodeInfo) (task : TaskInfo) : Option String × NodeInfo :=
  let key := PodKey task.Pod
  match TaskMap.lookup ni.Tasks key with
  | some _ =>
      (some ("task <" ++ task.Namespace ++ "/" ++ task.Name ++
             "> already on node <" ++ ni.Name ++ ">"), ni)
  | none =>
      let ti := task.Clone
      let ti := if CheckBackfill ti.Pod && !ti.IsBackfill then
                  { ti with IsBackfill := true }
                else ti
      let ni :=
        if (ni.Node).isSome then
          let ni := if task.IsBackfill then
                      { ni with Backfilled := ni.Backfilled.Add task.Resreq }
                    else ni
          let ni :=
            match ti.Status with
            | TaskStatus.Releasing =>
                { ni with Releasing := ni.Releasing.Add ti.Resreq,
                          Idle := ni.Idle.Sub ti.Resreq }
            | TaskStatus.Pipelined =>
                { ni with Releasing := ni.Releasing.Sub ti.Resreq }
            | _ =>
                { ni with Idle := ni.Idle.Sub ti.Resreq }
          { ni with Used := ni.Used.Add ti.Resreq }
        else ni
      (none, { ni with Tasks := TaskMap.insert ni.Tasks key ti })

/-- `NodeInfo.RemoveTask` (node_info.go lines 152-182). -/
def NodeInfo.RemoveTask (ni : NodeInfo) (ti : TaskInfo) : Option String × NodeInfo :=
  let key := PodKey ti.Pod
  match TaskMap.lookup ni.Tasks key with
  | none =>
      (some ("failed to find task <" ++ ti.Namespace ++ "/" ++ ti.Name ++
             "> on host <" ++ ni.Name ++ ">"), ni)
  | some task =>
      let ni :=
        if (ni.Node).isSome then
          let ni := if task.IsBackfill then
                      { ni with Backfilled := ni.Backfilled.Sub task.Resreq }
                    else ni
          let ni :=
            match task.Status with
            | TaskStatus.Releasing =>
                { ni with Releasing := ni.Releasing.Sub task.Resreq,
                          Idle := ni.Idle.Add task.Resreq }
            | TaskStatus.Pipelined =>
                { ni with Releasing := ni.Releasing.Add task.Resreq }
            | _ =>
                { ni with Idle := ni.Idle.Add task.Resreq }
          { ni with Used := ni.Used.Sub task.Resreq }
        else ni
      (none, { ni with Tasks := TaskMap.erase ni.Tasks key })

/-- `NodeInfo.Clone` (node_info.go lines 78-93): a fresh node from the same
`v1.Node`, with every stored task re-added (the `AddTask` error is ignored,
as in the source).  The Go `for range` iterates the task map in an
unspecified order; this definition is the insertion-order determinization,
and `cloneAlong` below replays the same loop along an arbitrary enumeration
of the task map, so that order-robust statements can quantify over every
iteration order Go may pick. -/
def NodeInfo.Clone (ni : NodeInfo) : NodeInfo :=
  ni.Tasks.foldl (fun acc kt => (acc.AddTask kt.2).2) (NewNodeInfo ni.Node)

/-- The `Clone` loop run from an explicit start node along an explicit task
sequence. -/
def cloneFold (acc : NodeInfo) (l : TaskMap) : NodeInfo :=
  l.foldl (fun a kt => (a.AddTask kt.2).2) acc

/-- `Clone` with the task map enumerated in an arbitrary order `l` (one
possible Go map iteration order); `NodeInfo.Clone ni = cloneAlong ni
ni.Tasks`. -/
def cloneAlong (ni : NodeInfo) (l : TaskMap) : NodeInfo :=
  cloneFold (NewNodeInfo ni.Node) l

/-- The loop body of `SetNode` (node_info.go lines 103-110): credit
`Releasing` for a releasing task, then debit `Idle` and credit `Used`. -/
def setNodeStep (acc : NodeInfo) (kt : String × TaskInfo) : NodeInfo :=
  let acc :=
    if kt.2.Status = TaskStatus.Releasing then
      { acc with Releasing := acc.Releasing.Add kt.2.Resreq }
    else acc
  { acc with Idle := acc.Idle.Sub kt.2.Resreq,
             Used := acc.Used.Add kt.2.Resreq }

/-- `NodeInfo.SetNode` (node_info.go lines 95-111). -/
def NodeInfo.SetNode (ni : NodeInfo) (node : V1Node) : NodeInfo :=
  let ni0 :=
    { ni with Name := node.Name
              Node := some node
              Allocatable := node.Allocatable
              Capability := node.Capacity
              Idle := node.Allocatable }
  ni0.Tasks.foldl setNodeStep ni0

/-- `NodeInfo.GetAccessibleResource` (node_info.go lines 214-219). -/
def NodeInfo.GetAccessibleResource (ni : NodeInfo) : Resource :=
  let idle := ni.Idle.Clone
  let accessible := (idle.Add ni.Backfilled).Clone
  accessible

/-! ## Configuration loading (`loadSchedulerConf`, src/unnamed/part_000) -/

/-- Modelled from the spec: the option map of a configured action
(`map[string]string` in Go); `none` stands for the nil map. -/
abbrev OptionMap := List (String × String)

/-- Lookup in an option map (Go map read). -/
def OptionMap.lookup : OptionMap → String → Option String
  | [], _ => none
  | (k, v) :: rest, key => if k = key then some v else OptionMap.lookup rest key

/-- Modelled from the spec: `conf.BackfillFlagName`, the key of the backfill
enable option, `backfill.enable` in §6. -/
def BackfillFlagName : String := "backfill.enable"

/-- Modelled from the spec: the key of the backfill starvation-threshold
option, `backfill.starvationThreshold` in §6. -/
def StarvationThresholdName : String := "backfill.starvationThreshold"

/-- Modelled from the spec: the documented 30-second default of the
starvation threshold (§6, §4.7). -/
def DefaultStarvingThreshold : String := "30s"

/-- Modelled from the spec: a plugin entry of a tier (§6: name, enabled
callback toggles, arguments). -/
structure PluginOption where
  Name : String
  EnabledJobOrder : Option Bool
  EnabledPreemptable : Option Bool
  EnabledJobReady : Option Bool
  Arguments : OptionMap
deriving Repr, DecidableEq

/-- Modelled from the spec: one tier of the configuration, a set of plugins
(§6). -/
structure Tier where
  Plugins : List PluginOption
deriving Repr, DecidableEq

/-- Modelled from the spec: a configured action, `{name, options}` (§6);
`Options = none` models the nil Go map. -/
structure ActionOption where
  Name : String
  Options : Option OptionMap
deriving Repr, DecidableEq

/-- Modelled from the spec: `conf.SchedulerConfiguration` — the ordered action
list and the ordered tier list (§6). -/
structure SchedulerConfiguration where
  Actions : List ActionOption
  Tiers : List Tier
deriving Repr, DecidableEq

/-- The per-action body of the loop in `loadSchedulerConf` (part_000 lines
60-75), after the registry check has succeeded: default a nil option map to the
empty map, and default the backfill enable flag to `"false"`. -/
def applyActionDefaults (a : ActionOption) : ActionOption :=
  let opts := a.Options.getD []
  let opts :=
    if a.Name = "backfill" then
      match OptionMap.lookup opts BackfillFlagName with
      | some _ => opts
      | none => opts ++ [(BackfillFlagName, "false")]
    else opts
  { a with Options := some opts }

/-- The action loop of `loadSchedulerConf` (part_000 lines 60-75): walk the
actions in order; the first name absent from the registry aborts with an
error, otherwise every action gets its defaults applied. -/
def processActions (registered : List String) :
    List ActionOption → Except String (List ActionOption)
  | [] => Except.ok []
  | a :: rest =>
      if registered.contains a.Name then
        match processActions registered rest with
        | Except.error e => Except.error e
        | Except.ok out => Except.ok (applyActionDefaults a :: out)
      else
        Except.error ("failed to found Action " ++ a.Name ++ ", ignore it")

/-- `loadSchedulerConf` (part_000 lines 43-78).  `yaml.Unmarshal` and the
plugin-default helper are outside the available sources, so the function takes
the parse outcome (`parsed`) and the per-plugin default function
(`applyPluginConfDefaults`, total, cannot fail) as arguments; both are
modelled from the spec. -/
def loadSchedulerConf (applyPluginConfDefaults : PluginOption → PluginOption)
    (registered : List String) (parsed : Except String SchedulerConfiguration) :
    Except String SchedulerConfiguration :=
  match parsed with
  | Except.error e => Except.error e
  | Except.ok sc =>
      let sc :=
        { sc with Tiers :=
            sc.Tiers.map (fun (tier : Tier) =>
              { tier with Plugins := tier.Plugins.map applyPluginConfDefaults }) }
      match processActions registered sc.Actions with
      | Except.error e => Except.error e
      | Except.ok as => Except.ok { sc with Actions := as }

/-! ## Basic lemmas about the resource algebra and the task map -/

@[simp]
theorem Resource.clone_id (a : Resource) : a.Clone = a := rfl

@[simp]
theorem TaskInfo.clone_id_task (ti : TaskInfo) : ti.Clone = ti := rfl

/-- The task value actually stored by `AddTask`: the clone, with the
`IsBackfill` flag forced on when `CheckBackfill` holds for the pod. -/
def storedTask (t : TaskInfo) : TaskInfo :=
  if CheckBackfill t.Pod && !t.IsBackfill then { t with IsBackfill := true } else t

theorem addTask_err_of_lookup_none (ni : NodeInfo) (t : TaskInfo)
    (h : TaskMap.lookup ni.Tasks (PodKey t.Pod) = none) :
    (ni.AddTask t).1 = none := by
  simp [NodeInfo.AddTask, h]

theorem addTask_frame (ni : NodeInfo) (t : TaskInfo) :
    (ni.AddTask t).2.Name = ni.Name ∧
    (ni.AddTask t).2.Node = ni.Node ∧
    (ni.AddTask t).2.Allocatable = ni.Allocatable ∧
    (ni.AddTask t).2.Capability = ni.Capability := by
  rcases t with ⟨pod, ns, nm, req, stt, bf⟩
  cases h : TaskMap.lookup ni.Tasks (PodKey pod) with
  | some s => simp [NodeInfo.AddTask, h]
  | none =>
      cases stt <;> cases bf <;> cases hcb : CheckBackfill pod <;>
        cases hn : ni.Node <;>
        simp [NodeInfo.AddTask, h, hcb, hn, TaskInfo.Clone]

theorem addTask_tasks_of_lookup_none (ni : NodeInfo) (t : TaskInfo)
    (h : TaskMap.lookup ni.Tasks (PodKey t.Pod) = none) :
    (ni.AddTask t).2.Tasks = ni.Tasks ++ [(PodKey t.Pod, storedTask t)] := by
  rcases t with ⟨pod, ns, nm, req, stt, bf⟩
  cases stt <;> cases bf <;> cases hcb : CheckBackfill pod <;>
    cases hn : ni.Node <;>
    simp [NodeInfo.AddTask, h, hcb, hn, TaskInfo.Clone, storedTask,
          TaskMap.insert]

theorem removeTask_frame (ni : NodeInfo) (t : TaskInfo) :
    (ni.RemoveTask t).2.Name = ni.Name ∧
    (ni.RemoveTask t).2.Node = ni.Node ∧
    (ni.RemoveTask t).2.Allocatable = ni.Allocatable ∧
    (ni.RemoveTask t).2.Capability = ni.Capability := by
  cases h : TaskMap.lookup ni.Tasks (PodKey t.Pod) with
  | none => simp [NodeInfo.RemoveTask, h]
  | some st =>
      rcases st with ⟨pod, ns, nm, req, stt, bf⟩
      cases stt <;> cases bf <;> cases hn : ni.Node <;>
        simp [NodeInfo.RemoveTask, h, hn]

theorem removeTask_err_of_lookup_some (ni : NodeInfo) (t st : TaskInfo)
    (h : TaskMap.lookup ni.Tasks (PodKey t.Pod) = some st) :
    (ni.RemoveTask t).1 = none := by
  rcases st with ⟨pod, ns, nm, req, stt, bf⟩
  cases stt <;> cases bf <;> cases hn : ni.Node <;>
    simp [NodeInfo.RemoveTask, h, hn]

theorem removeTask_tasks_of_lookup_some (ni : NodeInfo) (t st : TaskInfo)
    (h : TaskMap.lookup ni.Tasks (PodKey t.Pod) = some st) :
    (ni.RemoveTask t).2.Tasks = TaskMap.erase ni.Tasks (PodKey t.Pod) := by
  rcases st with ⟨pod, ns, nm, req, stt, bf⟩
  cases stt <;> cases bf <;> cases hn : ni.Node <;>
    simp [NodeInfo.RemoveTask, h, hn]

/-! ### Sums of requests over the task map -/

/-- Sum of the resource requests of all stored tasks. -/
def sumReq : TaskMap → Resource
  | [] => EmptyResource
  | (_, t) :: rest => (sumReq rest).Add t.Resreq

/-- Sum of the resource requests of the stored tasks whose `IsBackfill` flag
is set. -/
def sumReqBF : TaskMap → Resource
  | [] => EmptyResource
  | (_, t) :: rest =>
      if t.IsBackfill then (sumReqBF rest).Add t.Resreq else sumReqBF rest

/-- Sum of the resource requests of the stored tasks with a given status. -/
def sumReqStatus (s : TaskStatus) : TaskMap → Resource
  | [] => EmptyResource
  | (_, t) :: rest =>
      if t.Status = s then (sumReqStatus s rest).Add t.Resreq
      else sumReqStatus s rest

/-- Component-wise order on resources as a proposition. -/
def Resource.le (a b : Resource) : Prop :=
  a.milliCPU ≤ b.milliCPU ∧ a.memory ≤ b.memory ∧ a.gpu ≤ b.gpu

theorem Resource.lessEqual_iff (a b : Resource) :
    a.LessEqual b = true ↔ Resource.le a b := by
  simp [Resource.LessEqual, Resource.le, and_assoc]

theorem Resource.add_comm_assoc (a b c : Resource) :
    (a.Add b).Add c = (a.Add c).Add b := by
  simp [Resource.Add]
  omega

theorem sumReq_append_single (l : TaskMap) (k : String) (t : TaskInfo) :
    sumReq (l ++ [(k, t)]) = (sumReq l).Add t.Resreq := by
  induction l with
  | nil => rfl
  | cons p rest ih =>
      obtain ⟨k2, t2⟩ := p
      show (sumReq (rest ++ [(k, t)])).Add t2.Resreq = _
      rw [ih]
      exact Resource.add_comm_assoc (sumReq rest) t.Resreq t2.Resreq

theorem sumReqBF_append_single (l : TaskMap) (k : String) (t : TaskInfo) :
    sumReqBF (l ++ [(k, t)]) =
      (if t.IsBackfill then (sumReqBF l).Add t.Resreq else sumReqBF l) := by
  induction l with
  | nil => rfl
  | cons p rest ih =>
      obtain ⟨k2, t2⟩ := p
      show sumReqBF ((k2, t2) :: (rest ++ [(k, t)])) = _
      rw [sumReqBF, ih, sumReqBF]
      cases hb : t.IsBackfill <;> cases hb2 : t2.IsBackfill <;> simp
      exact Resource.add_comm_assoc (sumReqBF rest) t.Resreq t2.Resreq

theorem sumReqStatus_append_single (s : TaskStatus) (l : TaskMap) (k : String)
    (t : TaskInfo) :
    sumReqStatus s (l ++ [(k, t)]) =
      (if t.Status = s then (sumReqStatus s l).Add t.Resreq
       else sumReqStatus s l) := by
  induction l with
  | nil => rfl
  | cons p rest ih =>
      obtain ⟨k2, t2⟩ := p
      show sumReqStatus s ((k2, t2) :: (rest ++ [(k, t)])) = _
      rw [sumReqStatus, ih, sumReqStatus]
      by_cases hb : t.Status = s <;> by_cases hb2 : t2.Status = s <;> simp [hb, hb2]
      exact Resource.add_comm_assoc (sumReqStatus s rest) t.Resreq t2.Resreq

theorem sumReq_erase_of_lookup_some (l : TaskMap) (key : String) (st : TaskInfo)
    (h : TaskMap.lookup l key = some st) :
    sumReq l = (sumReq (TaskMap.erase l key)).Add st.Resreq := by
  induction l with
  | nil => simp [TaskMap.lookup] at h
  | cons p rest ih =>
      obtain ⟨k, t⟩ := p
      by_cases hk : k = key
      · rw [TaskMap.lookup, if_pos hk] at h
        obtain rfl : t = st := by injection h
        rw [TaskMap.erase, if_pos hk]
        rfl
      · rw [TaskMap.lookup, if_neg hk] at h
        rw [TaskMap.erase, if_neg hk, sumReq, sumReq, ih h]
        exact Resource.add_comm_assoc (sumReq (TaskMap.erase rest key))
          st.Resreq t.Resreq

theorem sumReqBF_erase_of_lookup_some (l : TaskMap) (key : String)
    (st : TaskInfo) (h : TaskMap.lookup l key = some st) :
    sumReqBF l =
      (if st.IsBackfill then (sumReqBF (TaskMap.erase l key)).Add st.Resreq
       else sumReqBF (TaskMap.erase l key)) := by
  induction l with
  | nil => simp [TaskMap.lookup] at h
  | cons p rest ih =>
      obtain ⟨k, t⟩ := p
      by_cases hk : k = key
      · rw [TaskMap.lookup, if_pos hk] at h
        obtain rfl : t = st := by injection h
        rw [TaskMap.erase, if_pos hk]
        rfl
      · rw [TaskMap.lookup, if_neg hk] at h
        rw [TaskMap.erase, if_neg hk, sumReqBF, sumReqBF, ih h]
        cases hb : st.IsBackfill <;> cases hb2 : t.IsBackfill <;> simp
        exact Resource.add_comm_assoc (sumReqBF (TaskMap.erase rest key))
          st.Resreq t.Resreq

theorem sumReqBF_le_sumReq (l : TaskMap) :
    Resource.le (sumReqBF l) (sumReq l) := by
  induction l with
  | nil => simp [sumReqBF, sumReq, Resource.le]
  | cons p rest ih =>
      obtain ⟨k, t⟩ := p
      obtain ⟨h1, h2, h3⟩ := ih
      cases hb : t.IsBackfill <;>
        simp [sumReqBF, sumReq, hb, Resource.Add, Resource.le] <;>
        omega

theorem addTask_err_none_iff (ni : NodeInfo) (t : TaskInfo) :
    (ni.AddTask t).1 = none ↔
      TaskMap.lookup ni.Tasks (PodKey t.Pod) = none := by
  cases h : TaskMap.lookup ni.Tasks (PodKey t.Pod) <;>
    simp [NodeInfo.AddTask, h]

theorem removeTask_err_none_iff (ni : NodeInfo) (t : TaskInfo) :
    (ni.RemoveTask t).1 = none ↔
      (TaskMap.lookup ni.Tasks (PodKey t.Pod)).isSome := by
  cases h : TaskMap.lookup ni.Tasks (PodKey t.Pod) <;>
    simp [NodeInfo.RemoveTask, h]

theorem addTask_counters_of_some_node (ni : NodeInfo) (t : TaskInfo)
    (h : TaskMap.lookup ni.Tasks (PodKey t.Pod) = none)
    (hn : (ni.Node).isSome = true) :
    (ni.AddTask t).2.Used = ni.Used.Add t.Resreq ∧
    (ni.AddTask t).2.Backfilled =
      (if t.IsBackfill then ni.Backfilled.Add t.Resreq else ni.Backfilled) ∧
    (ni.AddTask t).2.Releasing =
      (match t.Status with
       | TaskStatus.Releasing => ni.Releasing.Add t.Resreq
       | TaskStatus.Pipelined => ni.Releasing.Sub t.Resreq
       | _ => ni.Releasing) ∧
    (ni.AddTask t).2.Idle =
      (match t.Status with
       | TaskStatus.Releasing => ni.Idle.Sub t.Resreq
       | TaskStatus.Pipelined => ni.Idle
       | _ => ni.Idle.Sub t.Resreq) := by
  rcases t with ⟨pod, ns, nm, req, stt, bf⟩
  cases stt <;> cases bf <;> cases hcb : CheckBackfill pod <;>
    simp [NodeInfo.AddTask, h, hcb, hn, TaskInfo.Clone]

theorem removeTask_counters_of_some_node (ni : NodeInfo) (t st : TaskInfo)
    (h : TaskMap.lookup ni.Tasks (PodKey t.Pod) = some st)
    (hn : (ni.Node).isSome = true) :
    (ni.RemoveTask t).2.Used = ni.Used.Sub st.Resreq ∧
    (ni.RemoveTask t).2.Backfilled =
      (if st.IsBackfill then ni.Backfilled.Sub st.Resreq else ni.Backfilled) ∧
    (ni.RemoveTask t).2.Releasing =
      (match st.Status with
       | TaskStatus.Releasing => ni.Releasing.Sub st.Resreq
       | TaskStatus.Pipelined => ni.Releasing.Add st.Resreq
       | _ => ni.Releasing) ∧
    (ni.RemoveTask t).2.Idle =
      (match st.Status with
       | TaskStatus.Releasing => ni.Idle.Add st.Resreq
       | TaskStatus.Pipelined => ni.Idle
       | _ => ni.Idle.Add st.Resreq) := by
  rcases st with ⟨pod, ns, nm, req, stt, bf⟩
  cases stt <;> cases bf <;>
    simp [NodeInfo.RemoveTask, h, hn]

theorem storedTask_fields (t : TaskInfo) :
    (storedTask t).Pod = t.Pod ∧
    (storedTask t).Resreq = t.Resreq ∧
    (storedTask t).Status = t.Status ∧
    (storedTask t).IsBackfill = (t.IsBackfill || CheckBackfill t.Pod) := by
  cases hb : t.IsBackfill <;> cases hcb : CheckBackfill t.Pod <;>
    simp [storedTask, hb, hcb]

theorem lookup_mem (l : TaskMap) (key : String) (st : TaskInfo)
    (h : TaskMap.lookup l key = some st) : (key, st) ∈ l := by
  induction l with
  | nil => simp [TaskMap.lookup] at h
  | cons p rest ih =>
      obtain ⟨k, t⟩ := p
      by_cases hk : k = key
      · rw [TaskMap.lookup, if_pos hk] at h
        obtain rfl : t = st := by injection h
        subst hk
        exact List.mem_cons_self _ _
      · rw [TaskMap.lookup, if_neg hk] at h
        exact List.mem_cons_of_mem _ (ih h)

theorem mem_erase (l : TaskMap) (key : String) (p : String × TaskInfo)
    (h : p ∈ TaskMap.erase l key) : p ∈ l := by
  induction l with
  | nil => simp [TaskMap.erase] at h
  | cons q rest ih =>
      obtain ⟨k, t⟩ := q
      by_cases hk : k = key
      · rw [TaskMap.erase, if_pos hk] at h
        exact List.mem_cons_of_mem _ h
      · rw [TaskMap.erase, if_neg hk] at h
        rcases List.mem_cons.mp h with h1 | h2
        · exact h1 ▸ List.mem_cons_self _ _
        · exact List.mem_cons_of_mem _ (ih h2)

/-! ### Small facts about the resource algebra -/

theorem Resource.add_empty (a : Resource) : a.Add EmptyResource = a := by
  simp [Resource.Add, EmptyResource]

theorem Resource.sub_empty (a : Resource) : a.Sub EmptyResource = a := by
  simp [Resource.Sub, EmptyResource]

theorem Resource.add_sub_cancel_right (a b : Resource) : (a.Add b).Sub b = a := by
  simp [Resource.Add, Resource.Sub]

theorem Resource.empty_le (a : Resource) : Resource.le EmptyResource a := by
  simp [Resource.le, EmptyResource]

theorem Resource.le_add_right_mono (a b c : Resource) (h : Resource.le a b) :
    Resource.le (a.Add c) (b.Add c) := by
  obtain ⟨h1, h2, h3⟩ := h
  refine ⟨?_, ?_, ?_⟩ <;> simp [Resource.Add] <;> omega

theorem Resource.le_add_of_le (a b c : Resource) (h : Resource.le a b) :
    Resource.le a (b.Add c) := by
  obtain ⟨h1, h2, h3⟩ := h
  refine ⟨?_, ?_, ?_⟩ <;> simp [Resource.Add] <;> omega

theorem Resource.sub_le_of_le_add (a b c : Resource)
    (h : Resource.le a (b.Add c)) : Resource.le (a.Sub c) b := by
  obtain ⟨h1, h2, h3⟩ := h
  simp [Resource.Add] at h1 h2 h3
  refine ⟨?_, ?_, ?_⟩ <;> simp [Resource.Sub] <;> omega

theorem Resource.le_trans_res (a b c : Resource) (h1 : Resource.le a b)
    (h2 : Resource.le b c) : Resource.le a c := by
  obtain ⟨x1, x2, x3⟩ := h1
  obtain ⟨y1, y2, y3⟩ := h2
  exact ⟨le_trans x1 y1, le_trans x2 y2, le_trans x3 y3⟩

/-! ### Reachable node states -/

/-- Node states built from `NewNodeInfo` of a node object by successful
`AddTask` / `RemoveTask` calls. -/
inductive Reach (nd : V1Node) : NodeInfo → Prop where
  | base : Reach nd (NewNodeInfo (some nd))
  | add (ni : NodeInfo) (t : TaskInfo) :
      Reach nd ni → (ni.AddTask t).1 = none → Reach nd (ni.AddTask t).2
  | remove (ni : NodeInfo) (t : TaskInfo) :
      Reach nd ni → (ni.RemoveTask t).1 = none → Reach nd (ni.RemoveTask t).2

/-- Node states built like `Reach`, but where every added task has a status
other than `Releasing` / `Pipelined` and a request that fits in the node's
idle resources at add time (no clamped subtraction occurs). -/
inductive ReachSafe (nd : V1Node) : NodeInfo → Prop where
  | base : ReachSafe nd (NewNodeInfo (some nd))
  | add (ni : NodeInfo) (t : TaskInfo) :
      ReachSafe nd ni → (ni.AddTask t).1 = none →
      t.Status ≠ TaskStatus.Releasing → t.Status ≠ TaskStatus.Pipelined →
      t.Resreq.LessEqual ni.Idle = true →
      ReachSafe nd (ni.AddTask t).2
  | remove (ni : NodeInfo) (t : TaskInfo) :
      ReachSafe nd ni → (ni.RemoveTask t).1 = none →
      ReachSafe nd (ni.RemoveTask t).2

/-- The invariant carried by every reachable state: the node object is still
there, `Used` is the exact sum of the stored requests, and `Backfilled` is
bounded by the sum of the stored backfill requests. -/
theorem reach_inv (nd : V1Node) (ni : NodeInfo) (h : Reach nd ni) :
    ni.Node = some nd ∧
    ni.Used = sumReq ni.Tasks ∧
    Resource.le ni.Backfilled (sumReqBF ni.Tasks) := by
  induction h with
  | base =>
      refine ⟨rfl, rfl, ?_⟩
      exact Resource.empty_le _
  | add ni t hr herr ih =>
      obtain ⟨hnode, hused, hbf⟩ := ih
      have hlook := (addTask_err_none_iff ni t).mp herr
      have hn : (ni.Node).isSome = true := by rw [hnode]; rfl
      obtain ⟨hu, hb, _, _⟩ := addTask_counters_of_some_node ni t hlook hn
      have htasks := addTask_tasks_of_lookup_none ni t hlook
      have hnode2 := (addTask_frame ni t).2.1
      refine ⟨hnode2.trans hnode, ?_, ?_⟩
      · rw [hu, htasks, sumReq_append_single, (storedTask_fields t).2.1, hused]
      · rw [hb, htasks, sumReqBF_append_single, (storedTask_fields t).2.2.2,
            (storedTask_fields t).2.1]
        cases hf : t.IsBackfill
        · simp only [Bool.false_or]
          cases hcb : CheckBackfill t.Pod
          · simpa using hbf
          · simpa using Resource.le_add_of_le _ _ _ hbf
        · simp only [Bool.true_or]
          simpa using Resource.le_add_right_mono _ _ _ hbf
  | remove ni t hr herr ih =>
      obtain ⟨hnode, hused, hbf⟩ := ih
      have hlook0 := (removeTask_err_none_iff ni t).mp herr
      obtain ⟨st, hlook⟩ := Option.isSome_iff_exists.mp hlook0
      have hn : (ni.Node).isSome = true := by rw [hnode]; rfl
      obtain ⟨hu, hb, _, _⟩ := removeTask_counters_of_some_node ni t st hlook hn
      have htasks := removeTask_tasks_of_lookup_some ni t st hlook
      have hnode2 := (removeTask_frame ni t).2.1
      have hsum := sumReq_erase_of_lookup_some ni.Tasks (PodKey t.Pod) st hlook
      have hsumbf := sumReqBF_erase_of_lookup_some ni.Tasks (PodKey t.Pod) st hlook
      refine ⟨hnode2.trans hnode, ?_, ?_⟩
      · rw [hu, htasks, hused, hsum, Resource.add_sub_cancel_right]
      · rw [hb, htasks]
        cases hf : st.IsBackfill
        · have h2 : sumReqBF ni.Tasks =
              sumReqBF (TaskMap.erase ni.Tasks (PodKey t.Pod)) := by
            simpa [hf] using hsumbf
          simp only [hf, Bool.false_eq_true, if_false]
          exact h2 ▸ hbf
        · have h2 : sumReqBF ni.Tasks =
              (sumReqBF (TaskMap.erase ni.Tasks (PodKey t.Pod))).Add st.Resreq := by
            simpa [hf] using hsumbf
          simp only [hf, if_true]
          exact Resource.sub_le_of_le_add _ _ _ (h2 ▸ hbf)

/-- The invariant carried by every safely-reachable state: no `Releasing` /
`Pipelined` task is stored, `Releasing` stays empty, and `Idle + Used`
equals `Allocatable` exactly. -/
theorem reachSafe_inv (nd : V1Node) (ni : NodeInfo) (h : ReachSafe nd ni) :
    ni.Node = some nd ∧
    ni.Releasing = EmptyResource ∧
    ni.Idle.Add ni.Used = ni.Allocatable ∧
    ni.Used = sumReq ni.Tasks ∧
    (∀ k t, (k, t) ∈ ni.Tasks →
      t.Status ≠ TaskStatus.Releasing ∧ t.Status ≠ TaskStatus.Pipelined) := by
  induction h with
  | base =>
      refine ⟨rfl, rfl, Resource.add_empty _, rfl, ?_⟩
      intro k t hmem
      simp [NewNodeInfo] at hmem
  | add ni t hr herr hs1 hs2 hfit ih =>
      obtain ⟨hnode, hrel, hiu, hused, hstat⟩ := ih
      have hlook := (addTask_err_none_iff ni t).mp herr
      have hn : (ni.Node).isSome = true := by rw [hnode]; rfl
      obtain ⟨hu, _, hrel2, hidle⟩ := addTask_counters_of_some_node ni t hlook hn
      have htasks := addTask_tasks_of_lookup_none ni t hlook
      have hframe := addTask_frame ni t
      have hrel3 : (ni.AddTask t).2.Releasing = ni.Releasing := by
        rw [hrel2]
        cases hst : t.Status <;> simp_all
      have hidle2 : (ni.AddTask t).2.Idle = ni.Idle.Sub t.Resreq := by
        rw [hidle]
        cases hst : t.Status <;> simp_all
      refine ⟨hframe.2.1.trans hnode, hrel3.trans hrel, ?_, ?_, ?_⟩
      · rw [hidle2, hu, hframe.2.2.1, ← hiu]
        have hfit2 := (Resource.lessEqual_iff _ _).mp hfit
        obtain ⟨f1, f2, f3⟩ := hfit2
        simp [Resource.Add, Resource.Sub]
        omega
      · rw [hu, htasks, sumReq_append_single, (storedTask_fields t).2.1, hused]
      · intro k t2 hmem
        rw [htasks] at hmem
        rcases List.mem_append.mp hmem with h1 | h2
        · exact hstat k t2 h1
        · simp at h2
          rw [h2.2, (storedTask_fields t).2.2.1]
          exact ⟨hs1, hs2⟩
  | remove ni t hr herr ih =>
      obtain ⟨hnode, hrel, hiu, hused, hstat⟩ := ih
      have hlook0 := (removeTask_err_none_iff ni t).mp herr
      obtain ⟨st, hlook⟩ := Option.isSome_iff_exists.mp hlook0
      have hn : (ni.Node).isSome = true := by rw [hnode]; rfl
      obtain ⟨hu, _, hrel2, hidle⟩ := removeTask_counters_of_some_node ni t st hlook hn
      have htasks := removeTask_tasks_of_lookup_some ni t st hlook
      have hframe := removeTask_frame ni t
      have hmem := lookup_mem ni.Tasks (PodKey t.Pod) st hlook
      obtain ⟨hst1, hst2⟩ := hstat _ _ hmem
      have hrel3 : (ni.RemoveTask t).2.Releasing = ni.Releasing := by
        rw [hrel2]
        cases hst : st.Status <;> simp_all
      have hidle2 : (ni.RemoveTask t).2.Idle = ni.Idle.Add st.Resreq := by
        rw [hidle]
        cases hst : st.Status <;> simp_all
      have hsum := sumReq_erase_of_lookup_some ni.Tasks (PodKey t.Pod) st hlook
      refine ⟨hframe.2.1.trans hnode, hrel3.trans hrel, ?_, ?_, ?_⟩
      · rw [hidle2, hu, hframe.2.2.1, ← hiu, hused, hsum]
        simp [Resource.Add, Resource.Sub]
        omega
      · rw [hu, htasks, hused, hsum, Resource.add_sub_cancel_right]
      · intro k t2 hmem2
        rw [htasks] at hmem2
        exact hstat k t2 (mem_erase _ _ _ hmem2)

theorem Resource.sub_add_cancel_of_le (a b : Resource) (h : Resource.le b a) :
    (a.Sub b).Add b = a := by
  obtain ⟨h1, h2, h3⟩ := h
  obtain ⟨x1, x2, x3⟩ := a
  obtain ⟨y1, y2, y3⟩ := b
  simp [Resource.Sub, Resource.Add] at h1 h2 h3 ⊢
  omega

theorem Resource.empty_add (a : Resource) : EmptyResource.Add a = a := by
  simp [Resource.Add, EmptyResource]

theorem Resource.add_shuffle (a b c : Resource) :
    (a.Add b).Add c = a.Add (c.Add b) := by
  simp [Resource.Add]
  omega

theorem Resource.sub_sub_shuffle (a b c : Resource) :
    (a.Sub b).Sub c = a.Sub (c.Add b) := by
  simp [Resource.Sub, Resource.Add]
  omega

theorem nodeInfo_ext (a b : NodeInfo)
    (h1 : a.Name = b.Name) (h2 : a.Node = b.Node)
    (h3 : a.Releasing = b.Releasing) (h4 : a.Idle = b.Idle)
    (h5 : a.Used = b.Used) (h6 : a.Backfilled = b.Backfilled)
    (h7 : a.Allocatable = b.Allocatable) (h8 : a.Capability = b.Capability)
    (h9 : a.Tasks = b.Tasks) : a = b := by
  cases a
  cases b
  simp_all

theorem lookup_append_self (l : TaskMap) (key : String) (ti : TaskInfo)
    (h : TaskMap.lookup l key = none) :
    TaskMap.lookup (l ++ [(key, ti)]) key = some ti := by
  induction l with
  | nil => simp [TaskMap.lookup]
  | cons p rest ih =>
      obtain ⟨k, t⟩ := p
      by_cases hk : k = key
      · rw [TaskMap.lookup, if_pos hk] at h
        exact absurd h (by simp)
      · rw [TaskMap.lookup, if_neg hk] at h
        show TaskMap.lookup ((k, t) :: (rest ++ [(key, ti)])) key = some ti
        rw [TaskMap.lookup, if_neg hk]
        exact ih h

theorem erase_append_self (l : TaskMap) (key : String) (ti : TaskInfo)
    (h : TaskMap.lookup l key = none) :
    TaskMap.erase (l ++ [(key, ti)]) key = l := by
  induction l with
  | nil => simp [TaskMap.erase]
  | cons p rest ih =>
      obtain ⟨k, t⟩ := p
      by_cases hk : k = key
      · rw [TaskMap.lookup, if_pos hk] at h
        exact absurd h (by simp)
      · rw [TaskMap.lookup, if_neg hk] at h
        show TaskMap.erase ((k, t) :: (rest ++ [(key, ti)])) key = _
        rw [TaskMap.erase, if_neg hk, ih h]

theorem addTask_counters_of_none_node (ni : NodeInfo) (t : TaskInfo)
    (hn : ni.Node = none) :
    (ni.AddTask t).2.Releasing = ni.Releasing ∧
    (ni.AddTask t).2.Idle = ni.Idle ∧
    (ni.AddTask t).2.Used = ni.Used ∧
    (ni.AddTask t).2.Backfilled = ni.Backfilled := by
  cases h : TaskMap.lookup ni.Tasks (PodKey t.Pod) <;>
    simp [NodeInfo.AddTask, h, hn]

theorem removeTask_counters_of_none_node (ni : NodeInfo) (t : TaskInfo)
    (hn : ni.Node = none) :
    (ni.RemoveTask t).2.Releasing = ni.Releasing ∧
    (ni.RemoveTask t).2.Idle = ni.Idle ∧
    (ni.RemoveTask t).2.Used = ni.Used ∧
    (ni.RemoveTask t).2.Backfilled = ni.Backfilled := by
  cases h : TaskMap.lookup ni.Tasks (PodKey t.Pod) <;>
    simp [NodeInfo.RemoveTask, h, hn]

/-! ### Concrete fixtures used by witnesses and counterexamples -/

/-- A 4-cpu/4-memory node object. -/
def nodeA : V1Node := ⟨"n1", ⟨4, 4, 0⟩, ⟨4, 4, 0⟩⟩

/-- A plain `Running` task requesting 2 cpu / 2 memory. -/
def taskRun : TaskInfo :=
  ⟨⟨"c1", "p1", false⟩, "c1", "p1", ⟨2, 2, 0⟩, TaskStatus.Running, false⟩

/-- A `Releasing` task requesting 2 cpu / 2 memory. -/
def taskRel : TaskInfo :=
  ⟨⟨"c1", "p2", false⟩, "c1", "p2", ⟨2, 2, 0⟩, TaskStatus.Releasing, false⟩

/-- A task whose pod carries the backfill marking but whose `IsBackfill`
flag is still false. -/
def taskMismatch : TaskInfo :=
  ⟨⟨"c1", "p4", true⟩, "c1", "p4", ⟨2, 2, 0⟩, TaskStatus.Running, false⟩

/-- A genuine backfill task: flag set and pod marked. -/
def taskBF : TaskInfo :=
  ⟨⟨"c1", "p3", true⟩, "c1", "p3", ⟨1, 1, 0⟩, TaskStatus.Running, true⟩

/-! ## Claims about the node bookkeeping -/

/-- C2, counterexample: one successful `AddTask` of a `Releasing`-status task
on a fresh node already violates `Idle + Used - Releasing = Allocatable`
(the add charges `Used`, debits `Idle` and credits `Releasing`, so the
combination drops by the request). -/
theorem releasing_add_breaks_claimed_invariant :
    ((NewNodeInfo (some nodeA)).AddTask taskRel).1 = none ∧
    ¬ ((((NewNodeInfo (some nodeA)).AddTask taskRel).2.Idle.Add
          ((NewNodeInfo (some nodeA)).AddTask taskRel).2.Used).Sub
        ((NewNodeInfo (some nodeA)).AddTask taskRel).2.Releasing =
        ((NewNodeInfo (some nodeA)).AddTask taskRel).2.Allocatable) := by
  decide

/-- C2 (amended): for every node built by `NewNodeInfo` from a node object and
every sequence of successful `AddTask` / `RemoveTask` operations,
`0 ≤ Backfilled ≤ Used` holds pointwise; the equation
`Idle + Used - Releasing = Allocatable` additionally holds whenever every
added task's status is neither `Releasing` nor `Pipelined` and every added
task's request fits in the node's idle resources at add time. -/
theorem node_counter_invariants (nd : V1Node) (ni : NodeInfo) :
    (Reach nd ni →
      EmptyResource.LessEqual ni.Backfilled = true ∧
      ni.Backfilled.LessEqual ni.Used = true) ∧
    (ReachSafe nd ni →
      (ni.Idle.Add ni.Used).Sub ni.Releasing = ni.Allocatable) := by
  constructor
  · intro h
    obtain ⟨hnode, hused, hbf⟩ := reach_inv nd ni h
    refine ⟨(Resource.lessEqual_iff _ _).mpr (Resource.empty_le _), ?_⟩
    refine (Resource.lessEqual_iff _ _).mpr ?_
    rw [hused]
    exact Resource.le_trans_res _ _ _ hbf (sumReqBF_le_sumReq _)
  · intro h
    obtain ⟨_, hrel, hiu, _, _⟩ := reachSafe_inv nd ni h
    rw [hrel, Resource.sub_empty, hiu]

/-- Witness for C2 (amended) at the node `nodeA`: after adding the releasing
task the backfill bounds hold, and after safely adding the running task the
idle/used equation holds. -/
theorem node_counter_invariants_witness :
    (EmptyResource.LessEqual
        ((NewNodeInfo (some nodeA)).AddTask taskRel).2.Backfilled = true ∧
      ((NewNodeInfo (some nodeA)).AddTask taskRel).2.Backfilled.LessEqual
        ((NewNodeInfo (some nodeA)).AddTask taskRel).2.Used = true) ∧
    ((((NewNodeInfo (some nodeA)).AddTask taskRun).2.Idle.Add
        ((NewNodeInfo (some nodeA)).AddTask taskRun).2.Used).Sub
      ((NewNodeInfo (some nodeA)).AddTask taskRun).2.Releasing =
      ((NewNodeInfo (some nodeA)).AddTask taskRun).2.Allocatable) :=
  ⟨(node_counter_invariants nodeA _).1
      (Reach.add _ taskRel Reach.base (by decide)),
    (node_counter_invariants nodeA _).2
      (ReachSafe.add _ taskRun ReachSafe.base (by decide) (by decide)
        (by decide) (by decide))⟩

/-- C3, counterexample: on a node already carrying one backfill task, adding
a task whose pod is marked for backfill while its `IsBackfill` flag is false
and then removing it does not restore the node: `AddTask` charges
`Backfilled` by the input flag (not at all here) while `RemoveTask` refunds
it by the stored clone's forced-on flag, so `Backfilled` ends up short. -/
theorem roundtrip_fails_on_flag_mismatch :
    TaskMap.lookup ((NewNodeInfo (some nodeA)).AddTask taskBF).2.Tasks
      (PodKey taskMismatch.Pod) = none ∧
    (((NewNodeInfo (some nodeA)).AddTask taskBF).2.AddTask taskMismatch).1
      = none ∧
    ((((NewNodeInfo (some nodeA)).AddTask taskBF).2.AddTask
        taskMismatch).2.RemoveTask taskMismatch).1 = none ∧
    ¬ (((((NewNodeInfo (some nodeA)).AddTask taskBF).2.AddTask
          taskMismatch).2.RemoveTask taskMismatch).2 =
        ((NewNodeInfo (some nodeA)).AddTask taskBF).2) := by
  decide

/-- C3 (amended): adding a task whose key is absent and then removing it
restores the node exactly, provided the task's `IsBackfill` flag already
reflects its pod's backfill marking and the subtraction performed by the add
is exact (the request fits in `Releasing` for a `Pipelined` task, in `Idle`
for any other status). -/
theorem addTask_removeTask_roundtrip (ni : NodeInfo) (t : TaskInfo)
    (hfresh : TaskMap.lookup ni.Tasks (PodKey t.Pod) = none)
    (hflag : (CheckBackfill t.Pod && !t.IsBackfill) = false)
    (hfit : (if t.Status = TaskStatus.Pipelined
             then t.Resreq.LessEqual ni.Releasing
             else t.Resreq.LessEqual ni.Idle) = true) :
    (ni.AddTask t).1 = none ∧
    ((ni.AddTask t).2.RemoveTask t).1 = none ∧
    ((ni.AddTask t).2.RemoveTask t).2 = ni := by
  have hstored : storedTask t = t := by
    simp only [storedTask, hflag, Bool.false_eq_true, if_false]
  have herr1 := addTask_err_of_lookup_none ni t hfresh
  have htasks1 := addTask_tasks_of_lookup_none ni t hfresh
  have hlook2 : TaskMap.lookup (ni.AddTask t).2.Tasks (PodKey t.Pod) = some t := by
    rw [htasks1, hstored]
    exact lookup_append_self _ _ _ hfresh
  have herr2 := removeTask_err_of_lookup_some _ t t hlook2
  have htasks2 := removeTask_tasks_of_lookup_some _ t t hlook2
  have hframe1 := addTask_frame ni t
  have hframe2 := removeTask_frame (ni.AddTask t).2 t
  refine ⟨herr1, herr2, ?_⟩
  have hTasksEq : ((ni.AddTask t).2.RemoveTask t).2.Tasks = ni.Tasks := by
    rw [htasks2, htasks1, hstored]
    exact erase_append_self _ _ _ hfresh
  cases hn : ni.Node with
  | none =>
      have ha := addTask_counters_of_none_node ni t hn
      have hn2 : (ni.AddTask t).2.Node = none := hframe1.2.1.trans hn
      have hb := removeTask_counters_of_none_node (ni.AddTask t).2 t hn2
      exact nodeInfo_ext _ _ (hframe2.1.trans hframe1.1)
        (hframe2.2.1.trans hframe1.2.1)
        (hb.1.trans ha.1) (hb.2.1.trans ha.2.1) (hb.2.2.1.trans ha.2.2.1)
        (hb.2.2.2.trans ha.2.2.2)
        (hframe2.2.2.1.trans hframe1.2.2.1)
        (hframe2.2.2.2.trans hframe1.2.2.2) hTasksEq
  | some nd =>
      have hnS : (ni.Node).isSome = true := by rw [hn]; rfl
      have hn2 : ((ni.AddTask t).2.Node).isSome = true := by
        rw [hframe1.2.1, hn]; rfl
      obtain ⟨haU, haB, haR, haI⟩ := addTask_counters_of_some_node ni t hfresh hnS
      obtain ⟨hbU, hbB, hbR, hbI⟩ :=
        removeTask_counters_of_some_node (ni.AddTask t).2 t t hlook2 hn2
      have hUsed : ((ni.AddTask t).2.RemoveTask t).2.Used = ni.Used := by
        rw [hbU, haU, Resource.add_sub_cancel_right]
      have hBack : ((ni.AddTask t).2.RemoveTask t).2.Backfilled
          = ni.Backfilled := by
        rw [hbB, haB]
        cases hf : t.IsBackfill <;> simp [Resource.add_sub_cancel_right]
      have hfitI : t.Status ≠ TaskStatus.Pipelined →
          Resource.le t.Resreq ni.Idle := by
        intro hp
        rw [if_neg hp] at hfit
        exact (Resource.lessEqual_iff _ _).mp hfit
      have hfitR : t.Status = TaskStatus.Pipelined →
          Resource.le t.Resreq ni.Releasing := by
        intro hp
        rw [if_pos hp] at hfit
        exact (Resource.lessEqual_iff _ _).mp hfit
      have hRel : ((ni.AddTask t).2.RemoveTask t).2.Releasing
          = ni.Releasing := by
        rw [hbR, haR]
        cases hst : t.Status
        case Releasing => exact Resource.add_sub_cancel_right _ _
        case Pipelined => exact Resource.sub_add_cancel_of_le _ _ (hfitR hst)
        all_goals rfl
      have hIdle : ((ni.AddTask t).2.RemoveTask t).2.Idle = ni.Idle := by
        rw [hbI, haI]
        cases hst : t.Status
        case Pipelined => rfl
        all_goals
          exact Resource.sub_add_cancel_of_le _ _
            (hfitI (by rw [hst]; decide))
      exact nodeInfo_ext _ _ (hframe2.1.trans hframe1.1)
        (hframe2.2.1.trans hframe1.2.1) hRel hIdle hUsed hBack
        (hframe2.2.2.1.trans hframe1.2.2.1)
        (hframe2.2.2.2.trans hframe1.2.2.2) hTasksEq

/-- Node states built from `NewNodeInfo` of a node object by successful
`AddTask` calls only, each of a task whose `IsBackfill` flag already reflects
its pod's backfill marking and whose status is not `Pipelined` (a `Pipelined`
add performs a clamped subtraction on `Releasing`, which does not commute
with the addition a `Releasing`-status add performs, so replaying the task
map in a different order could change the counters). -/
inductive BuiltByAdds (nd : V1Node) : NodeInfo → Prop where
  | base : BuiltByAdds nd (NewNodeInfo (some nd))
  | add (ni : NodeInfo) (t : TaskInfo) :
      BuiltByAdds nd ni → (ni.AddTask t).1 = none →
      (CheckBackfill t.Pod && !t.IsBackfill) = false →
      t.Status ≠ TaskStatus.Pipelined →
      BuiltByAdds nd (ni.AddTask t).2

/-- C5, counterexample: on a node holding a task whose pod carries the
backfill marking while the task's `IsBackfill` flag is false, `Clone` returns
a node with a different `Backfilled` counter than the original (the stored
clone had its flag forced on, and re-adding it charges `Backfilled`). -/
theorem clone_changes_backfilled :
    ((NewNodeInfo (some nodeA)).AddTask taskMismatch).1 = none ∧
    ¬ (((NewNodeInfo (some nodeA)).AddTask taskMismatch).2.Clone.Backfilled =
        ((NewNodeInfo (some nodeA)).AddTask taskMismatch).2.Backfilled) := by
  decide

theorem Resource.add_comm_res (a b : Resource) : a.Add b = b.Add a := by
  simp [Resource.Add]
  omega

/-- The entries a reachable task map stores: keyed by their pod's key, flag
already forced (so re-cloning is the identity), and never `Pipelined`. -/
def wfTaskEntries (l : TaskMap) : Prop :=
  ∀ p ∈ l, p.1 = PodKey p.2.Pod ∧ storedTask p.2 = p.2 ∧
    p.2.Status ≠ TaskStatus.Pipelined

/-- The keys of the task map are pairwise distinct. -/
def keysNodup (l : TaskMap) : Prop :=
  (l.map Prod.fst).Nodup

theorem lookup_append_single_ne (l : TaskMap) (k : String) (t : TaskInfo)
    (key : String) (hne : key ≠ k) :
    TaskMap.lookup (l ++ [(k, t)]) key = TaskMap.lookup l key := by
  induction l with
  | nil =>
      simp only [List.nil_append, TaskMap.lookup]
      rw [if_neg (Ne.symm hne)]
  | cons p rest ih =>
      obtain ⟨k2, t2⟩ := p
      simp only [List.cons_append, TaskMap.lookup]
      by_cases h2 : k2 = key
      · rw [if_pos h2, if_pos h2]
      · rw [if_neg h2, if_neg h2]
        exact ih

theorem lookup_none_not_mem_keys (l : TaskMap) (key : String)
    (h : TaskMap.lookup l key = none) : key ∉ l.map Prod.fst := by
  induction l with
  | nil => simp
  | cons p rest ih =>
      obtain ⟨k, t⟩ := p
      by_cases hk : k = key
      · rw [TaskMap.lookup, if_pos hk] at h
        cases h
      · rw [TaskMap.lookup, if_neg hk] at h
        simp only [List.map_cons, List.mem_cons]
        rintro (h1 | h2)
        · exact hk h1.symm
        · exact ih h h2

theorem sumReq_perm (l1 l2 : TaskMap) (h : l1.Perm l2) :
    sumReq l1 = sumReq l2 := by
  induction h with
  | nil => rfl
  | cons x _ ih =>
      obtain ⟨k, t⟩ := x
      rw [sumReq, sumReq, ih]
  | swap x y l =>
      obtain ⟨k1, t1⟩ := x
      obtain ⟨k2, t2⟩ := y
      rw [sumReq, sumReq, sumReq, sumReq]
      exact Resource.add_comm_assoc _ _ _
  | trans _ _ ih1 ih2 => exact ih1.trans ih2

theorem sumReqBF_perm (l1 l2 : TaskMap) (h : l1.Perm l2) :
    sumReqBF l1 = sumReqBF l2 := by
  induction h with
  | nil => rfl
  | cons x _ ih =>
      obtain ⟨k, t⟩ := x
      rw [sumReqBF, sumReqBF, ih]
  | swap x y l =>
      obtain ⟨k1, t1⟩ := x
      obtain ⟨k2, t2⟩ := y
      rw [sumReqBF, sumReqBF, sumReqBF, sumReqBF]
      cases hb1 : t1.IsBackfill <;> cases hb2 : t2.IsBackfill <;> simp
      exact Resource.add_comm_assoc _ _ _
  | trans _ _ ih1 ih2 => exact ih1.trans ih2

theorem sumReqStatus_perm (s : TaskStatus) (l1 l2 : TaskMap) (h : l1.Perm l2) :
    sumReqStatus s l1 = sumReqStatus s l2 := by
  induction h with
  | nil => rfl
  | cons x _ ih =>
      obtain ⟨k, t⟩ := x
      rw [sumReqStatus, sumReqStatus, ih]
  | swap x y l =>
      obtain ⟨k1, t1⟩ := x
      obtain ⟨k2, t2⟩ := y
      rw [sumReqStatus, sumReqStatus, sumReqStatus, sumReqStatus]
      by_cases hb1 : t1.Status = s <;> by_cases hb2 : t2.Status = s <;>
        simp [hb1, hb2]
      exact Resource.add_comm_assoc _ _ _
  | trans _ _ ih1 ih2 => exact ih1.trans ih2

/-- What the `Clone` loop does when run from any start node with a non-nil
node object along any well-formed, duplicate-free task sequence that is
fresh for the start node: it charges the counters by the sums of the
sequence's requests and appends the sequence to the task map. -/
theorem clone_fold (nd : V1Node) (l : TaskMap) :
    ∀ acc : NodeInfo, acc.Node = some nd →
    (∀ p ∈ l, TaskMap.lookup acc.Tasks p.1 = none) →
    wfTaskEntries l → keysNodup l →
    (cloneFold acc l).Name = acc.Name ∧
    (cloneFold acc l).Node = acc.Node ∧
    (cloneFold acc l).Releasing =
      acc.Releasing.Add (sumReqStatus TaskStatus.Releasing l) ∧
    (cloneFold acc l).Idle = acc.Idle.Sub (sumReq l) ∧
    (cloneFold acc l).Used = acc.Used.Add (sumReq l) ∧
    (cloneFold acc l).Backfilled = acc.Backfilled.Add (sumReqBF l) ∧
    (cloneFold acc l).Allocatable = acc.Allocatable ∧
    (cloneFold acc l).Capability = acc.Capability ∧
    (cloneFold acc l).Tasks = acc.Tasks ++ l := by
  induction l with
  | nil =>
      intro acc _ _ _ _
      refine ⟨rfl, rfl, ?_, ?_, ?_, ?_, rfl, rfl, by simp [cloneFold]⟩ <;>
        simp [cloneFold, sumReq, sumReqStatus, sumReqBF,
          Resource.add_empty, Resource.sub_empty]
  | cons p rest ih =>
      obtain ⟨k, t⟩ := p
      intro acc haccN hkeys hwf hnd
      obtain ⟨hk, hstored, hnp⟩ := hwf (k, t) (List.mem_cons_self _ _)
      have hlook : TaskMap.lookup acc.Tasks (PodKey t.Pod) = none := by
        rw [← hk]
        exact hkeys (k, t) (List.mem_cons_self _ _)
      have hfr := addTask_frame acc t
      have hnS : (acc.Node).isSome = true := by rw [haccN]; rfl
      obtain ⟨haU, haB, haR, haI⟩ := addTask_counters_of_some_node acc t hlook hnS
      have htk2 : (acc.AddTask t).2.Tasks = acc.Tasks ++ [(k, t)] := by
        rw [addTask_tasks_of_lookup_none acc t hlook, hstored, ← hk]
      have hnd0 : k ∉ rest.map Prod.fst ∧ (rest.map Prod.fst).Nodup := by
        simpa [keysNodup, List.nodup_cons] using hnd
      have hkeys2 : ∀ q ∈ rest,
          TaskMap.lookup (acc.AddTask t).2.Tasks q.1 = none := by
        intro q hq
        rw [htk2]
        have h1 : TaskMap.lookup acc.Tasks q.1 = none :=
          hkeys q (List.mem_cons_of_mem _ hq)
        have h2 : q.1 ≠ k := by
          intro he
          exact hnd0.1 (he ▸ List.mem_map_of_mem Prod.fst hq)
        rw [lookup_append_single_ne acc.Tasks k t q.1 h2]
        exact h1
      have hwf2 : wfTaskEntries rest :=
        fun q hq => hwf q (List.mem_cons_of_mem _ hq)
      have hnd2 : keysNodup rest := hnd0.2
      have hnode2 : (acc.AddTask t).2.Node = some nd := hfr.2.1.trans haccN
      obtain ⟨i1, i2, i3, i4, i5, i6, i7, i8, i9⟩ :=
        ih (acc.AddTask t).2 hnode2 hkeys2 hwf2 hnd2
      have haR2 : (acc.AddTask t).2.Releasing =
          (if t.Status = TaskStatus.Releasing
           then acc.Releasing.Add t.Resreq else acc.Releasing) := by
        rw [haR]
        cases hst : t.Status <;>
          first
          | exact absurd hst hnp
          | simp [hst]
      have haI2 : (acc.AddTask t).2.Idle = acc.Idle.Sub t.Resreq := by
        rw [haI]
        cases hst : t.Status <;>
          first
          | exact absurd hst hnp
          | rfl
      have hcons : cloneFold acc ((k, t) :: rest) =
          cloneFold (acc.AddTask t).2 rest := rfl
      rw [hcons]
      refine ⟨i1.trans hfr.1, i2.trans hfr.2.1, ?_, ?_, ?_, ?_,
        i7.trans hfr.2.2.1, i8.trans hfr.2.2.2, ?_⟩
      · rw [i3, haR2, sumReqStatus]
        by_cases hs : t.Status = TaskStatus.Releasing
        · rw [if_pos hs, if_pos hs]
          exact Resource.add_shuffle _ _ _
        · rw [if_neg hs, if_neg hs]
      · rw [i4, haI2, sumReq]
        exact Resource.sub_sub_shuffle _ _ _
      · rw [i5, haU, sumReq]
        exact Resource.add_shuffle _ _ _
      · rw [i6, haB, sumReqBF]
        cases hb : t.IsBackfill
        · simp only [Bool.false_eq_true, if_false]
        · simp only [if_true]
          exact Resource.add_shuffle _ _ _
      · rw [i9, htk2, List.append_assoc]
        rfl

/-- The invariant of add-only-built nodes: every counter equals the matching
sum over the stored task map, and the stored entries are well-formed with
pairwise-distinct keys. -/
theorem builtByAdds_inv (nd : V1Node) (ni : NodeInfo)
    (h : BuiltByAdds nd ni) :
    ni.Name = nd.Name ∧ ni.Node = some nd ∧
    ni.Allocatable = nd.Allocatable ∧ ni.Capability = nd.Capacity ∧
    ni.Used = sumReq ni.Tasks ∧
    ni.Backfilled = sumReqBF ni.Tasks ∧
    ni.Releasing = sumReqStatus TaskStatus.Releasing ni.Tasks ∧
    ni.Idle = nd.Allocatable.Sub (sumReq ni.Tasks) ∧
    wfTaskEntries ni.Tasks ∧ keysNodup ni.Tasks := by
  induction h with
  | base =>
      refine ⟨rfl, rfl, rfl, rfl, rfl, rfl, rfl, (Resource.sub_empty _).symm,
        ?_, ?_⟩
      · intro p hp
        cases hp
      · simp [keysNodup, NewNodeInfo]
  | add ni t hb herr hflag hnp ih =>
      obtain ⟨e1, e2, e3, e4, e5, e6, e7, e8, e9, e10⟩ := ih
      have hstored : storedTask t = t := by
        simp only [storedTask, hflag, Bool.false_eq_true, if_false]
      have hlook := (addTask_err_none_iff ni t).mp herr
      have hnS : (ni.Node).isSome = true := by rw [e2]; rfl
      obtain ⟨haU, haB, haR, haI⟩ := addTask_counters_of_some_node ni t hlook hnS
      have hfr := addTask_frame ni t
      have htk : (ni.AddTask t).2.Tasks =
          ni.Tasks ++ [(PodKey t.Pod, t)] := by
        rw [addTask_tasks_of_lookup_none ni t hlook, hstored]
      refine ⟨hfr.1.trans e1, hfr.2.1.trans e2, hfr.2.2.1.trans e3,
        hfr.2.2.2.trans e4, ?_, ?_, ?_, ?_, ?_, ?_⟩
      · rw [haU, htk, sumReq_append_single, e5]
      · rw [haB, htk, sumReqBF_append_single, e6]
      · rw [haR, htk, sumReqStatus_append_single, e7]
        cases hst : t.Status <;>
          first
          | exact absurd hst hnp
          | simp [hst]
      · have haI2 : (ni.AddTask t).2.Idle = ni.Idle.Sub t.Resreq := by
          rw [haI]
          cases hst : t.Status <;>
            first
            | exact absurd hst hnp
            | rfl
        rw [haI2, htk, sumReq_append_single, e8, Resource.sub_sub_shuffle]
        exact congrArg (fun x => Resource.Sub nd.Allocatable x)
          (Resource.add_comm_res _ _)
      · intro p hp
        rw [htk] at hp
        rcases List.mem_append.mp hp with h1 | h2
        · exact e9 p h1
        · have hps : p = (PodKey t.Pod, t) := by simpa using h2
          subst hps
          exact ⟨rfl, hstored, hnp⟩
      · show ((ni.AddTask t).2.Tasks.map Prod.fst).Nodup
        rw [htk, List.map_append]
        simp only [List.map_cons, List.map_nil]
        rw [List.nodup_append]
        refine ⟨e10, List.nodup_singleton _, ?_⟩
        intro a ha hmem
        have hak : a = PodKey t.Pod := by simpa using hmem
        subst hak
        exact lookup_none_not_mem_keys ni.Tasks (PodKey t.Pod) hlook ha

/-- C5 (amended): for every node built by successful `AddTask` calls of
tasks whose `IsBackfill` flags agree with their pods' backfill markings and
whose status is not `Pipelined`, replaying the `Clone` loop along ANY
enumeration of the task map (any Go map iteration order) yields a node whose
counters all equal the original's and whose task map holds the same
entries; in particular the embedding's `Clone` returns the original node
exactly.  (Independence of the original from later mutations of the clone is
a value / ownership property that holds by construction in this
embedding.) -/
theorem clone_restores (nd : V1Node) (ni : NodeInfo) (l : TaskMap)
    (h : BuiltByAdds nd ni) (hperm : l.Perm ni.Tasks) :
    (cloneAlong ni l).Name = ni.Name ∧
    (cloneAlong ni l).Node = ni.Node ∧
    (cloneAlong ni l).Releasing = ni.Releasing ∧
    (cloneAlong ni l).Idle = ni.Idle ∧
    (cloneAlong ni l).Used = ni.Used ∧
    (cloneAlong ni l).Backfilled = ni.Backfilled ∧
    (cloneAlong ni l).Allocatable = ni.Allocatable ∧
    (cloneAlong ni l).Capability = ni.Capability ∧
    (cloneAlong ni l).Tasks = l ∧
    ni.Clone = ni := by
  obtain ⟨e1, e2, e3, e4, e5, e6, e7, e8, e9, e10⟩ := builtByAdds_inv nd ni h
  have key : ∀ l2 : TaskMap, l2.Perm ni.Tasks →
      (cloneAlong ni l2).Name = ni.Name ∧
      (cloneAlong ni l2).Node = ni.Node ∧
      (cloneAlong ni l2).Releasing = ni.Releasing ∧
      (cloneAlong ni l2).Idle = ni.Idle ∧
      (cloneAlong ni l2).Used = ni.Used ∧
      (cloneAlong ni l2).Backfilled = ni.Backfilled ∧
      (cloneAlong ni l2).Allocatable = ni.Allocatable ∧
      (cloneAlong ni l2).Capability = ni.Capability ∧
      (cloneAlong ni l2).Tasks = l2 := by
    intro l2 hp2
    have hwf2 : wfTaskEntries l2 := fun p hp => e9 p (hp2.subset hp)
    have hnd2 : keysNodup l2 := ((hp2.map Prod.fst).nodup_iff).mpr e10
    have hca : cloneAlong ni l2 = cloneFold (NewNodeInfo (some nd)) l2 := by
      rw [cloneAlong, e2]
    obtain ⟨c1, c2, c3, c4, c5, c6, c7, c8, c9⟩ :=
      clone_fold nd l2 (NewNodeInfo (some nd)) rfl (fun p _ => rfl) hwf2 hnd2
    rw [hca]
    refine ⟨c1.trans e1.symm, c2.trans e2.symm, ?_, ?_, ?_, ?_,
      c7.trans e3.symm, c8.trans e4.symm, ?_⟩
    · rw [c3, e7, sumReqStatus_perm TaskStatus.Releasing l2 ni.Tasks hp2]
      exact Resource.empty_add _
    · rw [c4, e8, sumReq_perm l2 ni.Tasks hp2]
      rfl
    · rw [c5, e5, sumReq_perm l2 ni.Tasks hp2]
      exact Resource.empty_add _
    · rw [c6, e6, sumReqBF_perm l2 ni.Tasks hp2]
      exact Resource.empty_add _
    · rw [c9]
      rfl
  obtain ⟨k1, k2, k3, k4, k5, k6, k7, k8, k9⟩ := key l hperm
  obtain ⟨m1, m2, m3, m4, m5, m6, m7, m8, m9⟩ :=
    key ni.Tasks (List.Perm.refl _)
  refine ⟨k1, k2, k3, k4, k5, k6, k7, k8, k9, ?_⟩
  have hcl : NodeInfo.Clone ni = cloneAlong ni ni.Tasks := rfl
  rw [hcl]
  exact nodeInfo_ext _ _ m1 m2 m3 m4 m5 m6 m7 m8 m9

/-- The two-task fixture node for the C5 witness: a backfill task and a
running task added to the fresh node. -/
def niW : NodeInfo :=
  (((NewNodeInfo (some nodeA)).AddTask taskBF).2.AddTask taskRun).2

/-- Witness for C5 (amended): replaying `Clone` over the two stored tasks in
the REVERSED order (a different map iteration order than insertion order)
still reproduces every counter, and `Clone` itself returns the node
exactly. -/
theorem clone_restores_witness :
    (cloneAlong niW [("c1/p1", taskRun), ("c1/p3", taskBF)]).Releasing =
      niW.Releasing ∧
    (cloneAlong niW [("c1/p1", taskRun), ("c1/p3", taskBF)]).Idle =
      niW.Idle ∧
    (cloneAlong niW [("c1/p1", taskRun), ("c1/p3", taskBF)]).Used =
      niW.Used ∧
    (cloneAlong niW [("c1/p1", taskRun), ("c1/p3", taskBF)]).Backfilled =
      niW.Backfilled ∧
    niW.Clone = niW := by
  have hb : BuiltByAdds nodeA niW :=
    BuiltByAdds.add _ taskRun
      (BuiltByAdds.add _ taskBF BuiltByAdds.base (by decide) (by decide)
        (by decide))
      (by decide) (by decide) (by decide)
  have hperm : ([("c1/p1", taskRun), ("c1/p3", taskBF)] : TaskMap).Perm
      niW.Tasks := by decide
  obtain ⟨_, _, h3, h4, h5, h6, _, _, _, h10⟩ :=
    clone_restores nodeA niW [("c1/p1", taskRun), ("c1/p3", taskBF)] hb hperm
  exact ⟨h3, h4, h5, h6, h10⟩

/-- What the `SetNode` task loop does to an arbitrary accumulator: `Used`
gains the sum of all requests, `Releasing` gains the sum of the releasing
tasks' requests, `Idle` loses the sum of all requests, and every other field
is untouched. -/
theorem setNode_fold (l : TaskMap) (acc : NodeInfo) :
    (List.foldl setNodeStep acc l).Releasing =
      acc.Releasing.Add (sumReqStatus TaskStatus.Releasing l) ∧
    (List.foldl setNodeStep acc l).Idle = acc.Idle.Sub (sumReq l) ∧
    (List.foldl setNodeStep acc l).Used = acc.Used.Add (sumReq l) ∧
    (List.foldl setNodeStep acc l).Name = acc.Name ∧
    (List.foldl setNodeStep acc l).Node = acc.Node ∧
    (List.foldl setNodeStep acc l).Backfilled = acc.Backfilled ∧
    (List.foldl setNodeStep acc l).Allocatable = acc.Allocatable ∧
    (List.foldl setNodeStep acc l).Capability = acc.Capability ∧
    (List.foldl setNodeStep acc l).Tasks = acc.Tasks := by
  induction l generalizing acc with
  | nil =>
      refine ⟨?_, ?_, ?_, rfl, rfl, rfl, rfl, rfl, rfl⟩ <;>
        simp [sumReq, sumReqStatus, Resource.add_empty, Resource.sub_empty]
  | cons p rest ih =>
      obtain ⟨k, t⟩ := p
      obtain ⟨i1, i2, i3, i4, i5, i6, i7, i8, i9⟩ := ih (setNodeStep acc (k, t))
      obtain ⟨s1, s2, s3, s4, s5, s6, s7, s8, s9⟩ :
          (setNodeStep acc (k, t)).Releasing =
            (if t.Status = TaskStatus.Releasing
             then acc.Releasing.Add t.Resreq else acc.Releasing) ∧
          (setNodeStep acc (k, t)).Idle = acc.Idle.Sub t.Resreq ∧
          (setNodeStep acc (k, t)).Used = acc.Used.Add t.Resreq ∧
          (setNodeStep acc (k, t)).Name = acc.Name ∧
          (setNodeStep acc (k, t)).Node = acc.Node ∧
          (setNodeStep acc (k, t)).Backfilled = acc.Backfilled ∧
          (setNodeStep acc (k, t)).Allocatable = acc.Allocatable ∧
          (setNodeStep acc (k, t)).Capability = acc.Capability ∧
          (setNodeStep acc (k, t)).Tasks = acc.Tasks := by
        by_cases hs : t.Status = TaskStatus.Releasing <;>
          simp [setNodeStep, hs]
      simp only [List.foldl_cons, sumReq, sumReqStatus]
      refine ⟨?_, ?_, ?_, i4.trans s4, i5.trans s5, i6.trans s6,
        i7.trans s7, i8.trans s8, i9.trans s9⟩
      · rw [i1, s1]
        by_cases hs : t.Status = TaskStatus.Releasing
        · rw [if_pos hs, if_pos hs]
          exact Resource.add_shuffle _ _ _
        · rw [if_neg hs, if_neg hs]
      · rw [i2, s2]
        exact Resource.sub_sub_shuffle _ _ _
      · rw [i3, s3]
        exact Resource.add_shuffle _ _ _

/-- C7, counterexample: `SetNode` does not reset `Used`, so calling it on a
node whose counters already account for its task re-charges every task: with
one running task the resulting `Used` is twice the sum of the stored
requests, not the sum. -/
theorem setNode_double_counts_used :
    ¬ ((((NewNodeInfo (some nodeA)).AddTask taskRun).2.SetNode nodeA).Used =
        sumReq ((NewNodeInfo (some nodeA)).AddTask taskRun).2.Tasks) := by
  decide

/-- C7 (amended): on a node whose `Used` and `Releasing` counters are empty
(e.g. a fresh `NodeInfo` that merely holds its task set), `SetNode` computes
the exact recomputation: `Used` is the sum of all stored requests,
`Releasing` the sum of the releasing tasks' requests, `Idle` is the new
allocatable minus the sum of all requests, and `Allocatable` / `Capability` /
`Node` are taken from the node object.  (For `Pipelined` and backfill tasks
this recomputation deliberately differs from the §4.2 fresh-node
bookkeeping: the loop debits `Idle` for every task and never touches
`Backfilled`.) -/
theorem setNode_counters (ni : NodeInfo) (nd : V1Node)
    (hU : ni.Used = EmptyResource) (hR : ni.Releasing = EmptyResource) :
    (ni.SetNode nd).Used = sumReq ni.Tasks ∧
    (ni.SetNode nd).Releasing = sumReqStatus TaskStatus.Releasing ni.Tasks ∧
    (ni.SetNode nd).Idle = nd.Allocatable.Sub (sumReq ni.Tasks) ∧
    (ni.SetNode nd).Allocatable = nd.Allocatable ∧
    (ni.SetNode nd).Capability = nd.Capacity ∧
    (ni.SetNode nd).Node = some nd ∧
    (ni.SetNode nd).Tasks = ni.Tasks := by
  obtain ⟨f1, f2, f3, f4, f5, f6, f7, f8, f9⟩ :=
    setNode_fold ni.Tasks
      { ni with Name := nd.Name
                Node := some nd
                Allocatable := nd.Allocatable
                Capability := nd.Capacity
                Idle := nd.Allocatable }
  refine ⟨?_, ?_, ?_, ?_, ?_, ?_, ?_⟩
  · rw [show (ni.SetNode nd).Used = _ from f3]
    simp only [hU]
    exact Resource.empty_add _
  · rw [show (ni.SetNode nd).Releasing = _ from f1]
    simp only [hR]
    exact Resource.empty_add _
  · exact (show (ni.SetNode nd).Idle = _ from f2)
  · exact (show (ni.SetNode nd).Allocatable = _ from f7)
  · exact (show (ni.SetNode nd).Capability = _ from f8)
  · exact (show (ni.SetNode nd).Node = _ from f5)
  · exact (show (ni.SetNode nd).Tasks = _ from f9)

/-- Witness for C7 (amended): a node with empty counters holding the running
task; `SetNode` recomputes `Used`, `Releasing` and `Idle` from it. -/
theorem setNode_counters_witness :
    ((NewNodeInfo none).AddTask taskRun).2.Used = EmptyResource ∧
    ((NewNodeInfo none).AddTask taskRun).2.Releasing = EmptyResource ∧
    (((NewNodeInfo none).AddTask taskRun).2.SetNode nodeA).Used =
      sumReq ((NewNodeInfo none).AddTask taskRun).2.Tasks ∧
    (((NewNodeInfo none).AddTask taskRun).2.SetNode nodeA).Idle =
      nodeA.Allocatable.Sub
        (sumReq ((NewNodeInfo none).AddTask taskRun).2.Tasks) :=
  ⟨by decide, by decide,
    (setNode_counters ((NewNodeInfo none).AddTask taskRun).2 nodeA
      (by decide) (by decide)).1,
    (setNode_counters ((NewNodeInfo none).AddTask taskRun).2 nodeA
      (by decide) (by decide)).2.2.1⟩

/-- Witness for C3 (amended): the running task fits on the fresh node and its
flag agrees with its pod, so add-then-remove restores the node exactly. -/
theorem addTask_removeTask_roundtrip_witness :
    TaskMap.lookup (NewNodeInfo (some nodeA)).Tasks (PodKey taskRun.Pod)
      = none ∧
    (CheckBackfill taskRun.Pod && !taskRun.IsBackfill) = false ∧
    (((NewNodeInfo (some nodeA)).AddTask taskRun).2.RemoveTask taskRun).2
      = NewNodeInfo (some nodeA) :=
  ⟨by decide, by decide,
    (addTask_removeTask_roundtrip (NewNodeInfo (some nodeA)) taskRun
      (by decide) (by decide) (by decide)).2.2⟩

/-- C1: on a node with a non-nil `Node`, adding a task whose key is absent
updates the counters exactly as the status dictates: `Releasing` status adds
the request to `Releasing` and subtracts it from `Idle`; `Pipelined` subtracts
it from `Releasing` and leaves `Idle` alone; any other status subtracts it from
`Idle` and leaves `Releasing` alone; `Used` always gains the request, and
`Backfilled` gains it exactly when the task's `IsBackfill` flag holds. -/
theorem addTask_updates_counters_by_status
    (ni : NodeInfo) (nd : V1Node) (t : TaskInfo)
    (hnode : ni.Node = some nd)
    (hfresh : TaskMap.lookup ni.Tasks (PodKey t.Pod) = none) :
    (ni.AddTask t).1 = none ∧
    (ni.AddTask t).2.Used = ni.Used.Add t.Resreq ∧
    (ni.AddTask t).2.Backfilled =
      (if t.IsBackfill then ni.Backfilled.Add t.Resreq else ni.Backfilled) ∧
    (t.Status = TaskStatus.Releasing →
      (ni.AddTask t).2.Releasing = ni.Releasing.Add t.Resreq ∧
      (ni.AddTask t).2.Idle = ni.Idle.Sub t.Resreq) ∧
    (t.Status = TaskStatus.Pipelined →
      (ni.AddTask t).2.Releasing = ni.Releasing.Sub t.Resreq ∧
      (ni.AddTask t).2.Idle = ni.Idle) ∧
    (t.Status ≠ TaskStatus.Releasing → t.Status ≠ TaskStatus.Pipelined →
      (ni.AddTask t).2.Idle = ni.Idle.Sub t.Resreq ∧
      (ni.AddTask t).2.Releasing = ni.Releasing) := by
  rcases t with ⟨pod, ns, nm, req, st, bf⟩
  cases st <;>
    simp [NodeInfo.AddTask, hfresh, hnode, TaskInfo.Clone] <;>
    cases bf <;> simp <;> cases hcb : CheckBackfill pod <;> simp

/-- C4: `AddTask` fails exactly when the task's key is already stored,
`RemoveTask` fails exactly when it is not, and a failing call returns the
receiver unchanged. -/
theorem addTask_removeTask_error_iff (ni : NodeInfo) (t : TaskInfo) :
    ((ni.AddTask t).1.isSome ↔
      (TaskMap.lookup ni.Tasks (PodKey t.Pod)).isSome) ∧
    ((ni.AddTask t).1.isSome → (ni.AddTask t).2 = ni) ∧
    ((ni.RemoveTask t).1.isSome ↔
      TaskMap.lookup ni.Tasks (PodKey t.Pod) = none) ∧
    ((ni.RemoveTask t).1.isSome → (ni.RemoveTask t).2 = ni) := by
  cases hl : TaskMap.lookup ni.Tasks (PodKey t.Pod) <;>
    simp [NodeInfo.AddTask, NodeInfo.RemoveTask, hl]

/-- C6: `GetAccessibleResource` returns the component-wise sum of `Idle` and
`Backfilled` (the node itself is read, never written: the embedding returns
only the resource value). -/
theorem getAccessibleResource_eq_idle_add_backfilled (ni : NodeInfo) :
    ni.GetAccessibleResource.milliCPU = ni.Idle.milliCPU + ni.Backfilled.milliCPU ∧
    ni.GetAccessibleResource.memory = ni.Idle.memory + ni.Backfilled.memory ∧
    ni.GetAccessibleResource.gpu = ni.Idle.gpu + ni.Backfilled.gpu := by
  simp [NodeInfo.GetAccessibleResource, Resource.Add]

/-- C10: on a node whose `Node` field is nil, a successful `AddTask` or
`RemoveTask` changes only the task map and leaves every counter unchanged. -/
theorem nil_node_addTask_removeTask_frame (ni : NodeInfo) (t : TaskInfo)
    (hnil : ni.Node = none) :
    (TaskMap.lookup ni.Tasks (PodKey t.Pod) = none →
      (ni.AddTask t).1 = none ∧
      (ni.AddTask t).2.Idle = ni.Idle ∧
      (ni.AddTask t).2.Used = ni.Used ∧
      (ni.AddTask t).2.Releasing = ni.Releasing ∧
      (ni.AddTask t).2.Backfilled = ni.Backfilled ∧
      (ni.AddTask t).2.Tasks =
        TaskMap.insert ni.Tasks (PodKey t.Pod)
          (if CheckBackfill t.Pod && !t.IsBackfill then
            { t with IsBackfill := true } else t)) ∧
    ((TaskMap.lookup ni.Tasks (PodKey t.Pod)).isSome →
      (ni.RemoveTask t).1 = none ∧
      (ni.RemoveTask t).2.Idle = ni.Idle ∧
      (ni.RemoveTask t).2.Used = ni.Used ∧
      (ni.RemoveTask t).2.Releasing = ni.Releasing ∧
      (ni.RemoveTask t).2.Backfilled = ni.Backfilled ∧
      (ni.RemoveTask t).2.Tasks = TaskMap.erase ni.Tasks (PodKey t.Pod)) := by
  cases hl : TaskMap.lookup ni.Tasks (PodKey t.Pod) <;>
    simp [NodeInfo.AddTask, NodeInfo.RemoveTask, hl, hnil, TaskInfo.Clone]

/-- Witness for C1 at a fresh node and the releasing task. -/
theorem addTask_updates_counters_by_status_witness :
    (NewNodeInfo (some nodeA)).Node = some nodeA ∧
    TaskMap.lookup (NewNodeInfo (some nodeA)).Tasks (PodKey taskRel.Pod)
      = none ∧
    ((NewNodeInfo (some nodeA)).AddTask taskRel).1 = none ∧
    ((NewNodeInfo (some nodeA)).AddTask taskRel).2.Used =
      (NewNodeInfo (some nodeA)).Used.Add taskRel.Resreq ∧
    ((NewNodeInfo (some nodeA)).AddTask taskRel).2.Releasing =
      (NewNodeInfo (some nodeA)).Releasing.Add taskRel.Resreq :=
  ⟨rfl, rfl,
    (addTask_updates_counters_by_status (NewNodeInfo (some nodeA)) nodeA
      taskRel rfl rfl).1,
    (addTask_updates_counters_by_status (NewNodeInfo (some nodeA)) nodeA
      taskRel rfl rfl).2.1,
    ((addTask_updates_counters_by_status (NewNodeInfo (some nodeA)) nodeA
      taskRel rfl rfl).2.2.2.1 rfl).1⟩

/-- Witness for C4: a duplicate add fails and leaves the node unchanged; a
remove from an empty node fails and leaves it unchanged. -/
theorem addTask_removeTask_error_iff_witness :
    ((((NewNodeInfo (some nodeA)).AddTask taskRun).2.AddTask
        taskRun).1).isSome = true ∧
    (((NewNodeInfo (some nodeA)).AddTask taskRun).2.AddTask taskRun).2 =
      ((NewNodeInfo (some nodeA)).AddTask taskRun).2 ∧
    (((NewNodeInfo (some nodeA)).RemoveTask taskRun).1).isSome = true ∧
    ((NewNodeInfo (some nodeA)).RemoveTask taskRun).2 =
      NewNodeInfo (some nodeA) :=
  ⟨(addTask_removeTask_error_iff ((NewNodeInfo (some nodeA)).AddTask
      taskRun).2 taskRun).1.mpr (by decide),
    (addTask_removeTask_error_iff ((NewNodeInfo (some nodeA)).AddTask
      taskRun).2 taskRun).2.1
      ((addTask_removeTask_error_iff ((NewNodeInfo (some nodeA)).AddTask
        taskRun).2 taskRun).1.mpr (by decide)),
    (addTask_removeTask_error_iff (NewNodeInfo (some nodeA))
      taskRun).2.2.1.mpr (by decide),
    (addTask_removeTask_error_iff (NewNodeInfo (some nodeA)) taskRun).2.2.2
      ((addTask_removeTask_error_iff (NewNodeInfo (some nodeA))
        taskRun).2.2.1.mpr (by decide))⟩

/-- Witness for C10: on the nil-node `NodeInfo`, adding the running task
leaves `Used` untouched, and removing it afterwards erases it from the task
map while leaving the counters untouched. -/
theorem nil_node_addTask_removeTask_frame_witness :
    (NewNodeInfo none).Node = none ∧
    ((NewNodeInfo none).AddTask taskRun).2.Used = (NewNodeInfo none).Used ∧
    (((NewNodeInfo none).AddTask taskRun).2.RemoveTask taskRun).2.Used =
      ((NewNodeInfo none).AddTask taskRun).2.Used ∧
    (((NewNodeInfo none).AddTask taskRun).2.RemoveTask taskRun).2.Tasks =
      TaskMap.erase ((NewNodeInfo none).AddTask taskRun).2.Tasks
        (PodKey taskRun.Pod) :=
  ⟨rfl,
    ((nil_node_addTask_removeTask_frame (NewNodeInfo none) taskRun rfl).1
      (by decide)).2.2.1,
    ((nil_node_addTask_removeTask_frame ((NewNodeInfo none).AddTask
        taskRun).2 taskRun (by decide)).2 (by decide)).2.2.1,
    ((nil_node_addTask_removeTask_frame ((NewNodeInfo none).AddTask
        taskRun).2 taskRun (by decide)).2 (by decide)).2.2.2.2.2⟩

/-! ## Claims about the configuration loader -/

theorem applyActionDefaults_name (a : ActionOption) :
    (applyActionDefaults a).Name = a.Name := rfl

theorem applyActionDefaults_isSome (a : ActionOption) :
    ((applyActionDefaults a).Options).isSome = true := rfl

theorem processActions_cons (reg : List String) (a : ActionOption)
    (rest : List ActionOption) :
    processActions reg (a :: rest) =
      if reg.contains a.Name then
        match processActions reg rest with
        | Except.error e => Except.error e
        | Except.ok out => Except.ok (applyActionDefaults a :: out)
      else
        Except.error ("failed to found Action " ++ a.Name ++ ", ignore it") :=
  rfl

theorem processActions_error_iff (reg : List String)
    (acts : List ActionOption) :
    (∃ e, processActions reg acts = Except.error e) ↔
      ∃ a ∈ acts, reg.contains a.Name = false := by
  induction acts with
  | nil =>
      constructor
      · intro hex
        obtain ⟨e, he⟩ := hex
        cases he
      · intro hex
        obtain ⟨a, ha, _⟩ := hex
        cases ha
  | cons a rest ih =>
      rw [processActions_cons]
      by_cases hc : reg.contains a.Name = true
      · rw [if_pos hc]
        cases hp : processActions reg rest with
        | error e =>
            obtain ⟨b, hb, hbf⟩ := ih.mp ⟨e, hp⟩
            constructor
            · intro _
              exact ⟨b, List.mem_cons_of_mem _ hb, hbf⟩
            · intro _
              exact ⟨e, rfl⟩
        | ok out =>
            constructor
            · intro hex
              obtain ⟨e, he⟩ := hex
              cases he
            · intro hex
              obtain ⟨b, hb, hbf⟩ := hex
              rcases List.mem_cons.mp hb with rfl | hb2
              · rw [hc] at hbf
                cases hbf
              · obtain ⟨e, he⟩ := ih.mpr ⟨b, hb2, hbf⟩
                rw [hp] at he
                cases he
      · have hcf : reg.contains a.Name = false := by
          cases hcc : reg.contains a.Name
          · rfl
          · exact absurd hcc hc
        rw [if_neg hc]
        constructor
        · intro _
          exact ⟨a, List.mem_cons_self _ _, hcf⟩
        · intro _
          exact ⟨_, rfl⟩

theorem processActions_ok_spec (reg : List String) (acts : List ActionOption)
    (out : List ActionOption) (h : processActions reg acts = Except.ok out) :
    out = acts.map applyActionDefaults ∧
    ∀ a ∈ acts, reg.contains a.Name = true := by
  induction acts generalizing out with
  | nil =>
      obtain rfl : ([] : List ActionOption) = out := by injection h
      constructor
      · rfl
      · intro a ha
        cases ha
  | cons a rest ih =>
      rw [processActions_cons] at h
      by_cases hc : reg.contains a.Name = true
      · rw [if_pos hc] at h
        cases hp : processActions reg rest with
        | error e =>
            rw [hp] at h
            cases h
        | ok o2 =>
            rw [hp] at h
            obtain rfl : applyActionDefaults a :: o2 = out := by injection h
            obtain ⟨ho, hall⟩ := ih o2 hp
            constructor
            · rw [ho, List.map_cons]
            · intro b hb
              rcases List.mem_cons.mp hb with rfl | hb2
              · exact hc
              · exact hall b hb2
      · rw [if_neg hc] at h
        cases h

theorem loadSchedulerConf_ok_elim (ad : PluginOption → PluginOption)
    (reg : List String) (sc out : SchedulerConfiguration)
    (h : loadSchedulerConf ad reg (Except.ok sc) = Except.ok out) :
    processActions reg sc.Actions = Except.ok out.Actions ∧
    out.Actions = sc.Actions.map applyActionDefaults := by
  simp only [loadSchedulerConf] at h
  cases hp : processActions reg sc.Actions with
  | error e =>
      rw [hp] at h
      cases h
  | ok o =>
      rw [hp] at h
      injection h with h2
      constructor
      · rw [← h2]
      · rw [← h2]
        exact (processActions_ok_spec reg sc.Actions o hp).1

/-- C9: `loadSchedulerConf` fails exactly when the YAML parse failed or some
listed action name is not registered; on success every action of the result
is registered and carries a non-nil options map. -/
theorem loadSchedulerConf_error_iff (ad : PluginOption → PluginOption)
    (reg : List String) (parsed : Except String SchedulerConfiguration) :
    ((∃ e, loadSchedulerConf ad reg parsed = Except.error e) ↔
      ((∃ e, parsed = Except.error e) ∨
        (∃ sc, parsed = Except.ok sc ∧
          ∃ a ∈ sc.Actions, reg.contains a.Name = false))) ∧
    (∀ out, loadSchedulerConf ad reg parsed = Except.ok out →
      ∀ a ∈ out.Actions,
        reg.contains a.Name = true ∧ (a.Options).isSome = true) := by
  cases parsed with
  | error e =>
      constructor
      · constructor
        · intro _
          exact Or.inl ⟨e, rfl⟩
        · intro _
          exact ⟨e, rfl⟩
      · intro out h
        cases h
  | ok sc =>
      constructor
      · cases hp : processActions reg sc.Actions with
        | error e2 =>
            constructor
            · intro _
              exact Or.inr ⟨sc, rfl,
                (processActions_error_iff reg sc.Actions).mp ⟨e2, hp⟩⟩
            · intro _
              refine ⟨e2, ?_⟩
              simp only [loadSchedulerConf]
              rw [hp]
        | ok o =>
            constructor
            · intro hex
              obtain ⟨e2, he2⟩ := hex
              simp only [loadSchedulerConf] at he2
              rw [hp] at he2
              cases he2
            · intro h
              rcases h with ⟨e2, he2⟩ | ⟨sc2, hsc2, b, hb, hbf⟩
              · cases he2
              · obtain rfl : sc = sc2 := by injection hsc2
                obtain ⟨e3, he3⟩ :=
                  (processActions_error_iff reg sc.Actions).mpr ⟨b, hb, hbf⟩
                rw [hp] at he3
                cases he3
      · intro out h a ha
        obtain ⟨hp, hmap⟩ := loadSchedulerConf_ok_elim ad reg sc out h
        have hall := (processActions_ok_spec reg sc.Actions out.Actions hp).2
        rw [hmap] at ha
        obtain ⟨b, hb, rfl⟩ := List.mem_map.mp ha
        exact ⟨(applyActionDefaults_name b) ▸ hall b hb,
          applyActionDefaults_isSome b⟩

/-- The registry used by the configuration witnesses: the two shipped
actions. -/
def regA : List String := ["allocate", "backfill"]

/-- A parsed configuration listing both actions with nil option maps. -/
def scA : SchedulerConfiguration :=
  ⟨[⟨"allocate", none⟩, ⟨"backfill", none⟩], []⟩

/-- The configuration `loadSchedulerConf` produces from `scA`. -/
def outA : SchedulerConfiguration :=
  ⟨[⟨"allocate", some []⟩,
    ⟨"backfill", some [(BackfillFlagName, "false")]⟩], []⟩

/-- Witness for C9 at the default-style configuration. -/
theorem loadSchedulerConf_error_iff_witness :
    regA.contains (ActionOption.mk "backfill"
      (some [(BackfillFlagName, "false")])).Name = true ∧
    ((ActionOption.mk "backfill"
      (some [(BackfillFlagName, "false")])).Options).isSome = true :=
  (loadSchedulerConf_error_iff (fun p => p) regA (Except.ok scA)).2
    outA rfl ⟨"backfill", some [(BackfillFlagName, "false")]⟩
    (by decide)

/-- C8, counterexample: on a valid configuration listing the backfill action
with no options, `loadSchedulerConf` produces an options map containing only
the enable flag — the starvation-threshold option is NOT set, to a 30-second
default or anything else. -/
theorem loadSchedulerConf_sets_no_starvation_option :
    loadSchedulerConf (fun p => p) regA (Except.ok scA) = Except.ok outA ∧
    ¬ (OptionMap.lookup (((outA.Actions.getD 1 ⟨"", none⟩).Options).getD [])
        StarvationThresholdName = some DefaultStarvingThreshold) :=
  ⟨rfl, by decide⟩

theorem getD_map_applyDefaults (l : List ActionOption) (i : Nat)
    (d : ActionOption) (hi : i < l.length) :
    (l.map applyActionDefaults).getD i (applyActionDefaults d) =
      applyActionDefaults (l.getD i d) := by
  induction l generalizing i with
  | nil => cases hi
  | cons a rest ih =>
      cases i with
      | zero => rfl
      | succ n =>
          have hn : n < rest.length := Nat.lt_of_succ_lt_succ hi
          simp only [List.map_cons, List.getD_cons_succ]
          exact ih n hn

/-- C8 (amended): for every successfully loaded configuration, a listed
backfill action with a nil options map comes out with its options set to
exactly the enable flag bound to `"false"`; no starvation-threshold option is
added (the 30-second default is applied at session setup, not here). -/
theorem backfill_enable_default (ad : PluginOption → PluginOption)
    (reg : List String) (sc out : SchedulerConfiguration) (i : Nat)
    (h : loadSchedulerConf ad reg (Except.ok sc) = Except.ok out)
    (hi : i < sc.Actions.length)
    (hname : (sc.Actions.getD i ⟨"", none⟩).Name = "backfill")
    (hopt : (sc.Actions.getD i ⟨"", none⟩).Options = none) :
    (out.Actions.getD i ⟨"", none⟩).Options =
      some [(BackfillFlagName, "false")] ∧
    OptionMap.lookup (((out.Actions.getD i ⟨"", none⟩).Options).getD [])
      StarvationThresholdName = none := by
  obtain ⟨_, hmap⟩ := loadSchedulerConf_ok_elim ad reg sc out h
  have hdflt : applyActionDefaults ⟨"", none⟩ = ⟨"", some []⟩ := by decide
  have hget : (out.Actions.getD i ⟨"", none⟩).Options =
      some [(BackfillFlagName, "false")] := by
    have hact : sc.Actions.getD i ⟨"", none⟩ =
        ⟨"backfill", (none : Option OptionMap)⟩ := by
      rcases hv : sc.Actions.getD i ⟨"", none⟩ with ⟨n, o⟩
      rw [hv] at hname hopt
      have hn : n = "backfill" := hname
      have ho : o = none := hopt
      rw [hn, ho]
    have h1 : (sc.Actions.map applyActionDefaults).getD i
        (applyActionDefaults ⟨"", none⟩) =
        applyActionDefaults (sc.Actions.getD i ⟨"", none⟩) :=
      getD_map_applyDefaults sc.Actions i ⟨"", none⟩ hi
    have h2 : applyActionDefaults (⟨"backfill", none⟩ : ActionOption) =
        ⟨"backfill", some [(BackfillFlagName, "false")]⟩ := by decide
    have h3 : (sc.Actions.map applyActionDefaults).getD i
        (applyActionDefaults ⟨"", none⟩) =
        (out.Actions).getD i (applyActionDefaults ⟨"", none⟩) := by
      rw [hmap]
    have h4 : (out.Actions).getD i (applyActionDefaults ⟨"", none⟩) =
        (out.Actions).getD i ⟨"", none⟩ := by
      have hlen : i < out.Actions.length := by
        rw [hmap, List.length_map]
        exact hi
      rw [List.getD_eq_getElem _ _ hlen, List.getD_eq_getElem _ _ hlen]
    rw [← h4, ← h3, h1, hact, h2]
  refine ⟨hget, ?_⟩
  rw [hget]
  decide

/-- Witness for C8 (amended) at the default-style configuration. -/
theorem backfill_enable_default_witness :
    (outA.Actions.getD 1 ⟨"", none⟩).Options =
      some [(BackfillFlagName, "false")] ∧
    OptionMap.lookup (((outA.Actions.getD 1 ⟨"", none⟩).Options).getD [])
      StarvationThresholdName = none :=
  backfill_enable_default (fun p => p) regA scA outA 1 rfl
    (by decide) (by decide) (by decide)

end KubeBatch
